import Mathlib

/-!
# Interrupt-line lifecycle controller (`kernel/irq/chip.c`)

A shallow embedding of the descriptor setters and of the
startup / shutdown / disable / enable transitions of `kernel/irq/chip.c`.

Conventions of the embedding

* `unsigned int` values are natural numbers; arithmetic that can wrap is
  written with an explicit `% 2 ^ 32`.
* Nullable pointers are `Option`s; `void *` payloads are addresses (`Nat`).
* A chip operation acts on the hardware, not on the descriptor: what the
  embedding keeps of a call is the fact that it was made, in order, together
  with a snapshot of the line as the callee could read it through the
  `struct irq_data *` it is handed.  The same holds for the calls into the
  irq domain layer and for `irq_mark_irq`.
* `local_irq_save` / `local_irq_restore` only exclude reentry on the local
  processor; the sequential embedding has nothing to record for them.
-/

namespace IrqChip

/-! ## Constants and types declared in headers -/

/-- Modulus of `unsigned int`. -/
def UINT_MOD : Nat := 2 ^ 32

/-- Modelled from the spec: `errno` value behind the unknown-line error, declared in
`errno-base.h`, which is not among the sources. -/
def EINVAL : Int := 22

/-- Modelled from the spec: mask of the recognised sense/trigger bits, declared in
`linux/irq.h`, which is not among the sources. -/
def IRQ_TYPE_SENSE_MASK : Nat := 0x0000000f

/-- Modelled from the spec: bit of the state word holding the disabled flag, declared in
`linux/irq.h`, which is not among the sources. -/
def IRQD_IRQ_DISABLED : Nat := 1 <<< 16

/-- Modelled from the spec: bit of the state word holding the masked flag, declared in
`linux/irq.h`, which is not among the sources. -/
def IRQD_IRQ_MASKED : Nat := 1 <<< 17

/-- Return values of an interrupt handler (`linux/irqreturn.h`). -/
inductive irqreturn_t where
  | IRQ_NONE
  | IRQ_HANDLED
  | IRQ_WAKE_THREAD
  deriving DecidableEq, Repr

/-- The part of `struct irq_common_data` the file touches. -/
structure irq_common_data where
  state_use_accessors : Nat
  handler_data : Nat
  msi_desc : Option Nat
  deriving DecidableEq, Repr

/-- What a callee handed `&desc->irq_data` can read of the line: the line
number, the chip payload, the common data reached through `->common`, and the
nesting depth of the enclosing descriptor. -/
structure irq_snapshot where
  irq : Nat
  chip_data : Nat
  common : irq_common_data
  depth : Nat
  deriving DecidableEq, Repr

/-- Modelled from the spec: `struct irq_chip` is declared in `linux/irq.h`, which is not
among the sources.  Every operation is optional.  `irq_startup` yields a status
computed from the line it is handed, kept here as the integer the operation yields
before it is stored anywhere (upstream declares the operation `unsigned int`, so a real
status lies in `0 .. 2 ^ 32 - 1`); the other three return nothing, so all
that is kept of them is whether the pointer is set. -/
structure irq_chip where
  irq_startup : Option (irq_snapshot → Int)
  irq_shutdown : Bool
  irq_enable : Bool
  irq_disable : Bool

/-- The part of `struct irq_data` the file touches. -/
structure irq_data where
  irq : Nat
  chip : irq_chip
  chip_data : Nat

/-- The part of `struct irq_desc` the file touches.  The structure is declared in
`linux/irqdesc.h`, which is not among the sources; `depth` is the 32-bit `unsigned int`
counter of nested disables. -/
structure irq_desc where
  irq_common_data : irq_common_data
  irq_data : irq_data
  depth : Nat

/-- The part of `struct msi_desc` the file touches, and one field it does not. -/
structure msi_desc where
  irq : Nat
  nvec_used : Nat
  deriving DecidableEq, Repr

/-- Calls made out of this file, in the order they are made. -/
inductive call where
  | irq_domain_activate_irq (d : irq_snapshot)
  | irq_domain_deactivate_irq (d : irq_snapshot)
  | chip_irq_startup (d : irq_snapshot)
  | chip_irq_shutdown (d : irq_snapshot)
  | chip_irq_enable (d : irq_snapshot)
  | chip_irq_disable (d : irq_snapshot)
  | irq_mark_irq (irq : Nat)
  | irq_set_trigger (d : irq_snapshot) (type : Nat)
  | WARN_ONCE (irq : Int)
  deriving DecidableEq, Repr

/-- The line as seen through `&desc->irq_data`. -/
def snapshot (desc : irq_desc) : irq_snapshot :=
  { irq := desc.irq_data.irq
    chip_data := desc.irq_data.chip_data
    common := desc.irq_common_data
    depth := desc.depth }

/-- Global state: the descriptor table, the MSI descriptors by address, and
the calls made so far. -/
structure irq_state where
  descs : Nat → Option irq_desc
  msi : Nat → msi_desc
  calls : List call

/-- Modelled from the spec: the no-op chip lives in `dummychip.c`, which is not among the
sources; the spec describes it as implementing every capability as absent. -/
def no_irq_chip : irq_chip :=
  { irq_startup := none, irq_shutdown := false, irq_enable := false, irq_disable := false }

/-- Descriptor lookup by line number (`irqdesc.c`, not among the sources):
the table entry, if any. -/
def irq_to_desc (s : irq_state) (irq : Nat) : Option irq_desc :=
  s.descs irq

/-- Modelled from the spec: `irq_get_desc` is declared in `internals.h`, which is not
among the sources; the spec describes one line lookup by identifier returning
an optional record. -/
def irq_get_desc (s : irq_state) (irq : Nat) : Option irq_desc :=
  irq_to_desc s irq

/-- Store `desc` back at line `irq`. -/
def put_desc (s : irq_state) (irq : Nat) (desc : irq_desc) : irq_state :=
  { s with descs := fun i => if i = irq then some desc else s.descs i }

/-- The accessor `irqd_set` of `internals.h`: `state |= mask`. -/
def irqd_set (desc : irq_desc) (mask : Nat) : irq_desc :=
  { desc with irq_common_data :=
      { desc.irq_common_data with
        state_use_accessors := desc.irq_common_data.state_use_accessors ||| mask } }

/-- The accessor `irqd_clear` of `internals.h`: `state &= ~mask` on 32 bits. -/
def irqd_clear (desc : irq_desc) (mask : Nat) : irq_desc :=
  { desc with irq_common_data :=
      { desc.irq_common_data with
        state_use_accessors :=
          desc.irq_common_data.state_use_accessors &&& ((UINT_MOD - 1) ^^^ mask) } }

/-- The accessor `irqd_irq_disabled` of `linux/irq.h`. -/
def irqd_irq_disabled (desc : irq_desc) : Bool :=
  desc.irq_common_data.state_use_accessors &&& IRQD_IRQ_DISABLED != 0

/-- The accessor `irqd_irq_masked` of `linux/irq.h`. -/
def irqd_irq_masked (desc : irq_desc) : Bool :=
  desc.irq_common_data.state_use_accessors &&& IRQD_IRQ_MASKED != 0

/-- The masked flag as a callee reads it from the line it is handed. -/
def seen_masked (d : irq_snapshot) : Bool :=
  d.common.state_use_accessors &&& IRQD_IRQ_MASKED != 0

/-! ## `chip.c` -/

/-- Handler of `chained_action`: warn once, report the interrupt as not handled. -/
def bad_chained_irq (s : irq_state) (irq : Int) (_dev_id : Nat) : irqreturn_t × irq_state :=
  (irqreturn_t.IRQ_NONE, { s with calls := s.calls ++ [call.WARN_ONCE irq] })

/-- The part of `struct irqaction` that `chained_action` initialises. -/
structure irqaction where
  handler : irq_state → Int → Nat → irqreturn_t × irq_state
  name : String

/-- The action installed on chained lines. -/
def chained_action : irqaction :=
  { handler := bad_chained_irq, name := "chained-irq" }

/-- Embedding of `irq_set_chip`. -/
def irq_set_chip (s : irq_state) (irq : Nat) (chip : Option irq_chip) : Int × irq_state :=
  match irq_get_desc s irq with
  | none => (-EINVAL, s)
  | some desc =>
    let chip := match chip with
      | none => no_irq_chip
      | some c => c
    let desc := { desc with irq_data := { desc.irq_data with chip := chip } }
    let s := put_desc s irq desc
    (0, { s with calls := s.calls ++ [call.irq_mark_irq irq] })

/-- Embedding of `irq_set_irq_type`.  The trigger routine `__irq_set_trigger` lives in
`manage.c`, which is not among the sources: it is the parameter `set_trigger`,
which returns a status and the descriptor as it leaves it. -/
def irq_set_irq_type (set_trigger : irq_desc → Nat → Int × irq_desc)
    (s : irq_state) (irq : Nat) (type : Nat) : Int × irq_state :=
  match irq_get_desc s irq with
  | none => (-EINVAL, s)
  | some desc =>
    let type := type &&& IRQ_TYPE_SENSE_MASK
    let r := set_trigger desc type
    let s := put_desc s irq r.2
    (r.1, { s with calls := s.calls ++ [call.irq_set_trigger (snapshot desc) type] })

/-- Embedding of `irq_set_handler_data`. -/
def irq_set_handler_data (s : irq_state) (irq : Nat) (data : Nat) : Int × irq_state :=
  match irq_get_desc s irq with
  | none => (-EINVAL, s)
  | some desc =>
    let desc := { desc with irq_common_data := { desc.irq_common_data with handler_data := data } }
    (0, put_desc s irq desc)

/-- Embedding of `irq_set_msi_desc_off`; `entry` is the address of the MSI descriptor,
or `none` for a null pointer. -/
def irq_set_msi_desc_off (s : irq_state) (irq_base irq_offset : Nat) (entry : Option Nat) :
    Int × irq_state :=
  match irq_get_desc s ((irq_base + irq_offset) % UINT_MOD) with
  | none => (-EINVAL, s)
  | some desc =>
    let desc := { desc with irq_common_data := { desc.irq_common_data with msi_desc := entry } }
    let s := put_desc s ((irq_base + irq_offset) % UINT_MOD) desc
    match entry with
    | some p =>
      if irq_offset = 0 then
        (0, { s with msi := fun a => if a = p then { s.msi p with irq := irq_base } else s.msi a })
      else (0, s)
    | none => (0, s)

/-- Embedding of `irq_set_msi_desc`. -/
def irq_set_msi_desc (s : irq_state) (irq : Nat) (entry : Option Nat) : Int × irq_state :=
  irq_set_msi_desc_off s irq 0 entry

/-- Embedding of `irq_set_chip_data`. -/
def irq_set_chip_data (s : irq_state) (irq : Nat) (data : Nat) : Int × irq_state :=
  match irq_get_desc s irq with
  | none => (-EINVAL, s)
  | some desc =>
    let desc := { desc with irq_data := { desc.irq_data with chip_data := data } }
    (0, put_desc s irq desc)

/-- Embedding of `irq_get_irq_data`. -/
def irq_get_irq_data (s : irq_state) (irq : Nat) : Option irq_data :=
  match irq_to_desc s irq with
  | some desc => some desc.irq_data
  | none => none

/-- Embedding of `irq_state_clr_disabled`. -/
def irq_state_clr_disabled (desc : irq_desc) : irq_desc :=
  irqd_clear desc IRQD_IRQ_DISABLED

/-- Embedding of `irq_state_set_disabled`. -/
def irq_state_set_disabled (desc : irq_desc) : irq_desc :=
  irqd_set desc IRQD_IRQ_DISABLED

/-- Embedding of `irq_state_clr_masked`. -/
def irq_state_clr_masked (desc : irq_desc) : irq_desc :=
  irqd_clear desc IRQD_IRQ_MASKED

/-- Embedding of `irq_state_set_masked`. -/
def irq_state_set_masked (desc : irq_desc) : irq_desc :=
  irqd_set desc IRQD_IRQ_MASKED

/-- Storing an integer value in an `int`, as `ret = ...` does: the result is the value in
`-2 ^ 31 .. 2 ^ 31 - 1` with the same low 32 bits.  A value already in that range is
kept; an `unsigned int` of `2 ^ 31` or more comes out `2 ^ 32` smaller, hence negative. -/
def as_int (v : Int) : Int :=
  (v + 2 ^ 31) % 2 ^ 32 - 2 ^ 31

/-- Embedding of `irq_startup`: the status, the descriptor on return, and the calls made.
The status of the chip operation is stored in `int ret` before it is returned. -/
def irq_startup (desc : irq_desc) (_resend : Bool) : Int × irq_desc × List call :=
  let ret : Int := 0
  let desc := irq_state_clr_disabled desc
  let desc := { desc with depth := 0 }
  let calls := [call.irq_domain_activate_irq (snapshot desc)]
  match desc.irq_data.chip.irq_startup with
  | some f =>
    let ret := as_int (f (snapshot desc))
    let calls := calls ++ [call.chip_irq_startup (snapshot desc)]
    let desc := irq_state_clr_masked desc
    (ret, desc, calls)
  | none => (ret, desc, calls)

/-- Embedding of `irq_shutdown`: the descriptor on return and the calls made. -/
def irq_shutdown (desc : irq_desc) : irq_desc × List call :=
  let desc := irq_state_set_masked desc
  let calls := [call.irq_domain_deactivate_irq (snapshot desc)]
  let calls := if desc.irq_data.chip.irq_shutdown = true then
      calls ++ [call.chip_irq_shutdown (snapshot desc)]
    else calls
  (desc, calls)

/-- Embedding of `irq_disable`: the descriptor on return and the calls made.  The
post-increment stores the new depth before the chip is called. -/
def irq_disable (desc : irq_desc) : irq_desc × List call :=
  let desc := irq_state_set_disabled desc
  let old := desc.depth
  let desc := { desc with depth := (desc.depth + 1) % UINT_MOD }
  let calls := if old = 0 ∧ desc.irq_data.chip.irq_disable = true then
      [call.chip_irq_disable (snapshot desc)]
    else []
  (desc, calls)

/-- Embedding of `irq_enable`: the descriptor on return and the calls made.  The
pre-decrement wraps on 32 bits; the disabled flag is cleared after the chip call. -/
def irq_enable (desc : irq_desc) : irq_desc × List call :=
  let desc := { desc with depth := (desc.depth + UINT_MOD - 1) % UINT_MOD }
  let calls := if desc.depth = 0 ∧ desc.irq_data.chip.irq_enable = true then
      [call.chip_irq_enable (snapshot desc)]
    else []
  let desc := irq_state_clr_disabled desc
  (desc, calls)

/-! ## Sequences of transitions -/

/-- The four transitions of a line. -/
inductive lifecycle_op where
  | startup (resend : Bool)
  | shutdown
  | disable
  | enable
  deriving DecidableEq, Repr

/-- One transition: the descriptor on return and the calls made. -/
def step (op : lifecycle_op) (desc : irq_desc) : irq_desc × List call :=
  match op with
  | lifecycle_op.startup resend => (irq_startup desc resend).2
  | lifecycle_op.shutdown => irq_shutdown desc
  | lifecycle_op.disable => irq_disable desc
  | lifecycle_op.enable => irq_enable desc

/-- A sequence of transitions: the final descriptor and, for each transition in
order, the calls it made. -/
def run : List lifecycle_op → irq_desc → irq_desc × List (List call)
  | [], desc => (desc, [])
  | op :: ops, desc =>
    let r := step op desc
    let rest := run ops r.1
    (rest.1, r.2 :: rest.2)


/-- The descriptor `desc` with its chip pointer set to `chip`. -/
def with_chip (desc : irq_desc) (chip : irq_chip) : irq_desc :=
  { desc with irq_data := { desc.irq_data with chip := chip } }

/-- Number of `irq_disable` calls in a sequence. -/
def disables : List lifecycle_op → Nat
  | [] => 0
  | op :: ops => (if op = lifecycle_op.disable then 1 else 0) + disables ops

/-- Number of `irq_enable` calls in a sequence. -/
def enables : List lifecycle_op → Nat
  | [] => 0
  | op :: ops => (if op = lifecycle_op.enable then 1 else 0) + enables ops

/-- The sequence consists of `irq_disable` and `irq_enable` calls only. -/
def only_disable_enable (ops : List lifecycle_op) : Prop :=
  ∀ op ∈ ops, op = lifecycle_op.disable ∨ op = lifecycle_op.enable

/-- No prefix of the sequence contains more enables than disables. -/
def never_more_enables (ops : List lifecycle_op) : Prop :=
  ∀ n, enables (ops.take n) ≤ disables (ops.take n)

/-- After every prefix the number of outstanding disables is below the wrap limit of
the counter. -/
def below_wrap (ops : List lifecycle_op) : Prop :=
  ∀ n, disables (ops.take n) - enables (ops.take n) < UINT_MOD

/-- The two conditions above for a line that starts with `k` outstanding disables. -/
def nesting_ok (k : Nat) (ops : List lifecycle_op) : Prop :=
  ∀ n, enables (ops.take n) ≤ k + disables (ops.take n) ∧
    k + disables (ops.take n) - enables (ops.take n) < UINT_MOD

/-- The call is a call of the chip's `irq_disable`. -/
def is_chip_disable : call → Bool
  | call.chip_irq_disable _ => true
  | _ => false

/-- The call is a call of the chip's `irq_enable`. -/
def is_chip_enable : call → Bool
  | call.chip_irq_enable _ => true
  | _ => false

/-- The calls alternate between the chip's `irq_disable` and `irq_enable`, starting with
`irq_disable` when `expect_disable` is true and with `irq_enable` otherwise. -/
def alternates : Bool → List call → Bool
  | _, [] => true
  | true, c :: cs => is_chip_disable c && alternates false cs
  | false, c :: cs => is_chip_enable c && alternates true cs

/-! ## Inputs used to instantiate the theorems -/

/-- A chip defining all four operations; its startup reports status `7`. -/
def sample_chip : irq_chip :=
  { irq_startup := some (fun _ => 7), irq_shutdown := true, irq_enable := true,
    irq_disable := true }

/-- Line 5 at depth 0, masked and not disabled, on `sample_chip`. -/
def sample_desc : irq_desc :=
  { irq_common_data := { state_use_accessors := 0x20000, handler_data := 0, msi_desc := none }
    irq_data := { irq := 5, chip := sample_chip, chip_data := 9 }
    depth := 0 }

/-- A table holding `sample_desc` at line 5 and nothing else. -/
def sample_state : irq_state :=
  { descs := fun i => if i = 5 then some sample_desc else none
    msi := fun _ => { irq := 0, nvec_used := 1 }
    calls := [] }

/-- The same line on the no-op chip, which has no operation at all. -/
def bare_desc : irq_desc :=
  { sample_desc with irq_data := { sample_desc.irq_data with chip := no_irq_chip } }

/-- The same line on a chip whose startup reports `4294967274`, an `unsigned int` above
`2 ^ 31`. -/
def high_status_desc : irq_desc :=
  { sample_desc with
    irq_data := { sample_desc.irq_data with
      chip := { sample_chip with irq_startup := some (fun _ => 4294967274) } } }

/-! ## Auxiliary facts -/

theorem UINT_MOD_eq : UINT_MOD = 4294967296 := by decide

theorem run_append (xs ys : List lifecycle_op) (desc : irq_desc) :
    run (xs ++ ys) desc =
      ((run ys (run xs desc).1).1, (run xs desc).2 ++ (run ys (run xs desc).1).2) := by
  induction xs generalizing desc with
  | nil => simp [run]
  | cons x xs ih => simp [run, ih]

theorem run_cons (op : lifecycle_op) (ops : List lifecycle_op) (desc : irq_desc) :
    run (op :: ops) desc =
      ((run ops (step op desc).1).1, (step op desc).2 :: (run ops (step op desc).1).2) := rfl

theorem step_enable (desc : irq_desc) : step lifecycle_op.enable desc = irq_enable desc := rfl

theorem step_disable (desc : irq_desc) : step lifecycle_op.disable desc = irq_disable desc := rfl

/-- A disable at nonzero depth with the flag already set only counts. -/
theorem irq_disable_nested (st hd : Nat) (md : Option Nat) (dat : irq_data) (k : Nat)
    (hpos : 0 < k) (hlim : k + 1 < UINT_MOD) (hset : st ||| IRQD_IRQ_DISABLED = st) :
    irq_disable ⟨⟨st, hd, md⟩, dat, k⟩ = (⟨⟨st, hd, md⟩, dat, k + 1⟩, []) := by
  have hne : k ≠ 0 := by omega
  have hmod : (k + 1) % UINT_MOD = k + 1 := Nat.mod_eq_of_lt hlim
  simp [irq_disable, irq_state_set_disabled, irqd_set, hset, hne, hmod]

theorem run_disable_nested (n : Nat) (st hd : Nat) (md : Option Nat) (dat : irq_data) (k : Nat)
    (hpos : 0 < k) (hlim : k + n < UINT_MOD) (hset : st ||| IRQD_IRQ_DISABLED = st) :
    run (List.replicate n lifecycle_op.disable) ⟨⟨st, hd, md⟩, dat, k⟩ =
      (⟨⟨st, hd, md⟩, dat, k + n⟩, List.replicate n []) := by
  induction n generalizing k with
  | zero => simp [run]
  | succ n ih =>
    rw [List.replicate_succ, run_cons, step_disable,
      irq_disable_nested st hd md dat k hpos (by omega) hset]
    dsimp only
    rw [ih (k + 1) (by omega) (by omega)]
    simp [Nat.add_assoc, Nat.add_comm 1 n, List.replicate_succ]

/-- An enable that leaves the depth nonzero clears the flag and calls nothing. -/
theorem irq_enable_nested (st hd : Nat) (md : Option Nat) (dat : irq_data) (k : Nat)
    (h1 : 1 < k) (h2 : k < UINT_MOD) :
    irq_enable ⟨⟨st, hd, md⟩, dat, k⟩ =
      (⟨⟨st &&& ((UINT_MOD - 1) ^^^ IRQD_IRQ_DISABLED), hd, md⟩, dat, k - 1⟩, []) := by
  have hmod : (k + UINT_MOD - 1) % UINT_MOD = k - 1 := by
    rw [UINT_MOD_eq] at *; omega
  have hne : k - 1 ≠ 0 := by omega
  simp [irq_enable, hmod, hne, irq_state_clr_disabled, irqd_clear]

theorem run_enable_nested (n : Nat) (st hd : Nat) (md : Option Nat) (dat : irq_data) (k : Nat)
    (hlt : n + 1 < k) (hlim : k < UINT_MOD) :
    run (List.replicate (n + 1) lifecycle_op.enable) ⟨⟨st, hd, md⟩, dat, k⟩ =
      (⟨⟨st &&& ((UINT_MOD - 1) ^^^ IRQD_IRQ_DISABLED), hd, md⟩, dat, k - (n + 1)⟩,
        List.replicate (n + 1) []) := by
  induction n generalizing st k with
  | zero =>
    rw [List.replicate_succ, run_cons, step_enable,
      irq_enable_nested st hd md dat k (by omega) hlim]
    simp [run]
  | succ n ih =>
    rw [List.replicate_succ, run_cons, step_enable,
      irq_enable_nested st hd md dat k (by omega) hlim]
    dsimp only
    rw [ih _ (k - 1) (by omega) (by omega)]
    simp [Nat.and_assoc, List.replicate_succ]
    omega

/-- The outermost disable sets the flag, counts, and calls the chip. -/
theorem irq_disable_first (st hd : Nat) (md : Option Nat) (dat : irq_data)
    (hdis : dat.chip.irq_disable = true) :
    irq_disable ⟨⟨st, hd, md⟩, dat, 0⟩ =
      (⟨⟨st ||| IRQD_IRQ_DISABLED, hd, md⟩, dat, 1⟩,
        [call.chip_irq_disable ⟨dat.irq, dat.chip_data, ⟨st ||| IRQD_IRQ_DISABLED, hd, md⟩, 1⟩]) := by
  simp [irq_disable, hdis, irq_state_set_disabled, irqd_set, UINT_MOD_eq, snapshot]

/-- The enable that brings the depth back to zero calls the chip, then clears the flag. -/
theorem irq_enable_last (st hd : Nat) (md : Option Nat) (dat : irq_data)
    (hen : dat.chip.irq_enable = true) :
    irq_enable ⟨⟨st, hd, md⟩, dat, 1⟩ =
      (⟨⟨st &&& ((UINT_MOD - 1) ^^^ IRQD_IRQ_DISABLED), hd, md⟩, dat, 0⟩,
        [call.chip_irq_enable ⟨dat.irq, dat.chip_data, ⟨st, hd, md⟩, 0⟩]) := by
  have hmod : (1 + UINT_MOD - 1) % UINT_MOD = 0 := by simp [UINT_MOD_eq]
  simp [irq_enable, hen, irq_state_clr_disabled, irqd_clear, hmod, snapshot]

/-- C1: from depth 0 on a chip with both operations, `N` disables followed by `N` enables
call the chip exactly twice: the first disable calls `irq_disable`, the last enable calls
`irq_enable`, every other transition calls nothing, and the depth is 0 again. -/
theorem nested_disable_enable_calls (N : Nat) (desc : irq_desc) (hN : 1 ≤ N)
    (hlim : N < UINT_MOD) (hdepth : desc.depth = 0)
    (hdis : desc.irq_data.chip.irq_disable = true)
    (hen : desc.irq_data.chip.irq_enable = true) :
    (run (List.replicate N lifecycle_op.disable ++ List.replicate N lifecycle_op.enable)
        desc).2 =
      [call.chip_irq_disable (snapshot { irq_state_set_disabled desc with depth := 1 })] ::
        List.replicate (N - 1) [] ++
      (List.replicate (N - 1) [] ++
        [[call.chip_irq_enable (snapshot
          { (if N = 1 then irq_state_set_disabled desc
              else irq_state_clr_disabled (irq_state_set_disabled desc)) with depth := 0 })]])
    ∧ (run (List.replicate N lifecycle_op.disable ++ List.replicate N lifecycle_op.enable)
        desc).2.flatten =
      [call.chip_irq_disable (snapshot { irq_state_set_disabled desc with depth := 1 }),
        call.chip_irq_enable (snapshot
          { (if N = 1 then irq_state_set_disabled desc
              else irq_state_clr_disabled (irq_state_set_disabled desc)) with depth := 0 })]
    ∧ (run (List.replicate N lifecycle_op.disable ++ List.replicate N lifecycle_op.enable)
        desc).1.depth = 0 := by
  obtain ⟨m, rfl⟩ : ∃ m, N = m + 1 := ⟨N - 1, by omega⟩
  obtain ⟨⟨st, hd, md⟩, dat, dep⟩ := desc
  dsimp only at hdepth hdis hen
  subst hdepth
  have hor : (st ||| IRQD_IRQ_DISABLED) ||| IRQD_IRQ_DISABLED = st ||| IRQD_IRQ_DISABLED := by
    rw [Nat.or_assoc, Nat.or_self]
  -- the `m + 1` disables
  have hD : run (List.replicate (m + 1) lifecycle_op.disable) ⟨⟨st, hd, md⟩, dat, 0⟩ =
      (⟨⟨st ||| IRQD_IRQ_DISABLED, hd, md⟩, dat, m + 1⟩,
        [call.chip_irq_disable ⟨dat.irq, dat.chip_data, ⟨st ||| IRQD_IRQ_DISABLED, hd, md⟩, 1⟩] ::
          List.replicate m []) := by
    rw [List.replicate_succ, run_cons, step_disable, irq_disable_first st hd md dat hdis]
    dsimp only
    rw [run_disable_nested m _ hd md dat 1 (by omega) (by omega) hor]
    simp [Nat.add_comm 1 m]
  -- the `m + 1` enables that follow
  have hE : run (List.replicate (m + 1) lifecycle_op.enable)
        ⟨⟨st ||| IRQD_IRQ_DISABLED, hd, md⟩, dat, m + 1⟩ =
      (⟨⟨(st ||| IRQD_IRQ_DISABLED) &&& ((UINT_MOD - 1) ^^^ IRQD_IRQ_DISABLED), hd, md⟩, dat, 0⟩,
        List.replicate m [] ++
          [[call.chip_irq_enable ⟨dat.irq, dat.chip_data,
            ⟨if m + 1 = 1 then st ||| IRQD_IRQ_DISABLED
              else (st ||| IRQD_IRQ_DISABLED) &&& ((UINT_MOD - 1) ^^^ IRQD_IRQ_DISABLED),
              hd, md⟩, 0⟩]]) := by
    cases m with
    | zero =>
      rw [List.replicate_succ, run_cons, step_enable, irq_enable_last _ hd md dat hen]
      simp [run]
    | succ k =>
      rw [List.replicate_succ' (k + 1), run_append,
        run_enable_nested k _ hd md dat (k + 1 + 1) (by omega) (by omega)]
      dsimp only
      have hk : k + 1 + 1 - (k + 1) = 1 := by omega
      rw [hk, run_cons, step_enable, irq_enable_last _ hd md dat hen]
      simp [run, Nat.and_assoc]
  rw [run_append, hD]
  dsimp only
  rw [hE]
  by_cases hm : m = 0 <;>
    simp [hm, snapshot, irq_state_set_disabled, irq_state_clr_disabled, irqd_set, irqd_clear]

theorem nested_disable_enable_calls_witness :
    (1 ≤ 3 ∧ 3 < UINT_MOD ∧ sample_desc.depth = 0 ∧
      sample_desc.irq_data.chip.irq_disable = true ∧
      sample_desc.irq_data.chip.irq_enable = true) ∧
    (run (List.replicate 3 lifecycle_op.disable ++ List.replicate 3 lifecycle_op.enable)
        sample_desc).2 =
      [call.chip_irq_disable (snapshot { irq_state_set_disabled sample_desc with depth := 1 })] ::
        List.replicate (3 - 1) [] ++
      (List.replicate (3 - 1) [] ++
        [[call.chip_irq_enable (snapshot
          { (if 3 = 1 then irq_state_set_disabled sample_desc
              else irq_state_clr_disabled (irq_state_set_disabled sample_desc)) with depth := 0 })]])
    ∧ (run (List.replicate 3 lifecycle_op.disable ++ List.replicate 3 lifecycle_op.enable)
        sample_desc).2.flatten =
      [call.chip_irq_disable (snapshot { irq_state_set_disabled sample_desc with depth := 1 }),
        call.chip_irq_enable (snapshot
          { (if 3 = 1 then irq_state_set_disabled sample_desc
              else irq_state_clr_disabled (irq_state_set_disabled sample_desc)) with depth := 0 })]
    ∧ (run (List.replicate 3 lifecycle_op.disable ++ List.replicate 3 lifecycle_op.enable)
        sample_desc).1.depth = 0 :=
  ⟨⟨by decide, by decide, rfl, rfl, rfl⟩,
    nested_disable_enable_calls 3 sample_desc (by decide) (by decide) rfl rfl rfl⟩

/-! ### Flag bits -/

/-- Clearing the disabled bit leaves it clear. -/
theorem clr_disabled_bit (s : Nat) :
    (s &&& ((UINT_MOD - 1) ^^^ IRQD_IRQ_DISABLED)) &&& IRQD_IRQ_DISABLED = 0 := by
  have h : ((UINT_MOD - 1) ^^^ IRQD_IRQ_DISABLED) &&& IRQD_IRQ_DISABLED = 0 := by decide
  rw [Nat.and_assoc, h, Nat.and_zero]

/-- Clearing the masked bit leaves it clear. -/
theorem clr_masked_bit (s : Nat) :
    (s &&& ((UINT_MOD - 1) ^^^ IRQD_IRQ_MASKED)) &&& IRQD_IRQ_MASKED = 0 := by
  have h : ((UINT_MOD - 1) ^^^ IRQD_IRQ_MASKED) &&& IRQD_IRQ_MASKED = 0 := by decide
  rw [Nat.and_assoc, h, Nat.and_zero]

/-- Clearing the masked bit does not touch the disabled bit. -/
theorem clr_masked_keeps_disabled (s : Nat) :
    (s &&& ((UINT_MOD - 1) ^^^ IRQD_IRQ_MASKED)) &&& IRQD_IRQ_DISABLED =
      s &&& IRQD_IRQ_DISABLED := by
  have h : ((UINT_MOD - 1) ^^^ IRQD_IRQ_MASKED) &&& IRQD_IRQ_DISABLED = IRQD_IRQ_DISABLED := by
    decide
  rw [Nat.and_assoc, h]

/-- Clearing the disabled bit does not touch the masked bit. -/
theorem clr_disabled_keeps_masked (s : Nat) :
    (s &&& ((UINT_MOD - 1) ^^^ IRQD_IRQ_DISABLED)) &&& IRQD_IRQ_MASKED =
      s &&& IRQD_IRQ_MASKED := by
  have h : ((UINT_MOD - 1) ^^^ IRQD_IRQ_DISABLED) &&& IRQD_IRQ_MASKED = IRQD_IRQ_MASKED := by
    decide
  rw [Nat.and_assoc, h]

/-- Setting the masked bit leaves it set. -/
theorem set_masked_bit (s : Nat) : (s ||| IRQD_IRQ_MASKED) &&& IRQD_IRQ_MASKED ≠ 0 := by
  intro h
  have h17 : Nat.testBit ((s ||| IRQD_IRQ_MASKED) &&& IRQD_IRQ_MASKED) 17 = true := by
    have : Nat.testBit IRQD_IRQ_MASKED 17 = true := by decide
    simp [Nat.testBit_and, Nat.testBit_or, this]
  rw [h] at h17
  simp at h17

/-! ### What each transition does to the fields of the descriptor -/

theorem irq_disable_depth (desc : irq_desc) :
    (irq_disable desc).1.depth = (desc.depth + 1) % UINT_MOD := rfl

theorem irq_enable_depth (desc : irq_desc) :
    (irq_enable desc).1.depth = (desc.depth + UINT_MOD - 1) % UINT_MOD := rfl

theorem irq_disable_state (desc : irq_desc) :
    (irq_disable desc).1.irq_common_data.state_use_accessors =
      desc.irq_common_data.state_use_accessors ||| IRQD_IRQ_DISABLED := rfl

theorem irq_enable_state (desc : irq_desc) :
    (irq_enable desc).1.irq_common_data.state_use_accessors =
      desc.irq_common_data.state_use_accessors &&& ((UINT_MOD - 1) ^^^ IRQD_IRQ_DISABLED) := rfl

/-- C2: after `irq_enable` the disabled flag is clear, whatever the depth; from depth 0,
two disables and one enable leave the flag clear with depth 1. -/
theorem irq_enable_clears_disabled (desc : irq_desc) :
    irqd_irq_disabled (irq_enable desc).1 = false ∧
    (desc.depth = 0 →
      irqd_irq_disabled
          (run [lifecycle_op.disable, lifecycle_op.disable, lifecycle_op.enable] desc).1 = false ∧
        (run [lifecycle_op.disable, lifecycle_op.disable, lifecycle_op.enable] desc).1.depth = 1) := by
  have hflag : ∀ d : irq_desc, irqd_irq_disabled (irq_enable d).1 = false := by
    intro d
    unfold irqd_irq_disabled
    rw [irq_enable_state, clr_disabled_bit]
    rfl
  have hrun : (run [lifecycle_op.disable, lifecycle_op.disable, lifecycle_op.enable] desc).1 =
      (irq_enable (irq_disable (irq_disable desc).1).1).1 := rfl
  refine ⟨hflag desc, fun hdepth => ?_⟩
  rw [hrun]
  refine ⟨hflag (irq_disable (irq_disable desc).1).1, ?_⟩
  rw [irq_enable_depth, irq_disable_depth, irq_disable_depth, hdepth, UINT_MOD_eq]

theorem irq_enable_clears_disabled_witness :
    irqd_irq_disabled (irq_enable sample_desc).1 = false ∧
    sample_desc.depth = 0 ∧
    irqd_irq_disabled
        (run [lifecycle_op.disable, lifecycle_op.disable, lifecycle_op.enable]
          sample_desc).1 = false ∧
    (run [lifecycle_op.disable, lifecycle_op.disable, lifecycle_op.enable]
      sample_desc).1.depth = 1 :=
  ⟨(irq_enable_clears_disabled sample_desc).1, rfl,
    (irq_enable_clears_disabled sample_desc).2 rfl⟩

/-- C3: `irq_startup` returns with depth 0 and the disabled flag clear, whatever the prior
depth, the prior flags and the chip. -/
theorem irq_startup_resets_depth_and_disabled (desc : irq_desc) (resend : Bool) :
    (irq_startup desc resend).2.1.depth = 0 ∧
    irqd_irq_disabled (irq_startup desc resend).2.1 = false := by
  unfold irq_startup
  dsimp only
  split <;>
    simp [irqd_irq_disabled, irq_state_clr_disabled, irq_state_clr_masked, irqd_clear,
      clr_disabled_bit, clr_masked_keeps_disabled]

/-- C4: `irq_startup` leaves the masked flag as it was when the chip has no startup
operation, and clear when it has one, whatever status that operation computes. -/
theorem irq_startup_masked_flag (desc : irq_desc) (resend : Bool) :
    (desc.irq_data.chip.irq_startup = none →
      irqd_irq_masked (irq_startup desc resend).2.1 = irqd_irq_masked desc) ∧
    (∀ f : irq_snapshot → Int, desc.irq_data.chip.irq_startup = some f →
      irqd_irq_masked (irq_startup desc resend).2.1 = false) := by
  constructor
  · intro hnone
    simp [irq_startup, irq_state_clr_disabled, irqd_clear, hnone, irqd_irq_masked,
      clr_disabled_keeps_masked]
  · intro f hsome
    simp [irq_startup, irq_state_clr_disabled, irq_state_clr_masked, irqd_clear, hsome,
      irqd_irq_masked, clr_masked_bit]

theorem irq_startup_masked_flag_witness :
    (bare_desc.irq_data.chip.irq_startup = none ∧
      irqd_irq_masked (irq_startup bare_desc true).2.1 = irqd_irq_masked bare_desc) ∧
    (sample_desc.irq_data.chip.irq_startup = some (fun _ => 7) ∧
      irqd_irq_masked (irq_startup sample_desc true).2.1 = false) :=
  ⟨⟨rfl, (irq_startup_masked_flag bare_desc true).1 rfl⟩,
    ⟨rfl, (irq_startup_masked_flag sample_desc true).2 (fun _ => 7) rfl⟩⟩

/-- C5 as stated fails for a status that does not fit an `int`: on a chip whose startup
yields `4294967274`, `irq_startup` returns `-22`, not that value. -/
theorem irq_startup_status_not_exact :
    high_status_desc.irq_data.chip.irq_startup = some (fun _ => 4294967274) ∧
    (irq_startup high_status_desc false).1 = -22 ∧
    (irq_startup high_status_desc false).1 ≠
      (fun _ => (4294967274 : Int))
        (snapshot { irq_state_clr_disabled high_status_desc with depth := 0 }) := by
  have h : (irq_startup high_status_desc false).1 = -22 := by decide
  refine ⟨rfl, h, ?_⟩
  rw [h]
  decide

/-- C5 (amended): `irq_startup` returns the status of the chip's startup operation, for the
line it is handed (flag cleared, depth reset), as stored in an `int`: the status itself
when it lies in `-2 ^ 31 .. 2 ^ 31 - 1`, and `2 ^ 32` less for an unsigned status of
`2 ^ 31` or more.  It returns 0 when the chip has no startup operation, and `resend` plays
no part. -/
theorem irq_startup_status (desc : irq_desc) (resend : Bool) :
    (∀ f : irq_snapshot → Int, desc.irq_data.chip.irq_startup = some f →
      (irq_startup desc resend).1 =
        as_int (f (snapshot { irq_state_clr_disabled desc with depth := 0 }))) ∧
    (∀ f : irq_snapshot → Int, desc.irq_data.chip.irq_startup = some f →
      -2 ^ 31 ≤ f (snapshot { irq_state_clr_disabled desc with depth := 0 }) →
      f (snapshot { irq_state_clr_disabled desc with depth := 0 }) < 2 ^ 31 →
      (irq_startup desc resend).1 =
        f (snapshot { irq_state_clr_disabled desc with depth := 0 })) ∧
    (∀ f : irq_snapshot → Int, desc.irq_data.chip.irq_startup = some f →
      2 ^ 31 ≤ f (snapshot { irq_state_clr_disabled desc with depth := 0 }) →
      f (snapshot { irq_state_clr_disabled desc with depth := 0 }) < 2 ^ 32 →
      (irq_startup desc resend).1 =
        f (snapshot { irq_state_clr_disabled desc with depth := 0 }) - 2 ^ 32) ∧
    (desc.irq_data.chip.irq_startup = none → (irq_startup desc resend).1 = 0) ∧
    irq_startup desc resend = irq_startup desc (!resend) := by
  have hret : ∀ f : irq_snapshot → Int, desc.irq_data.chip.irq_startup = some f →
      (irq_startup desc resend).1 =
        as_int (f (snapshot { irq_state_clr_disabled desc with depth := 0 })) := by
    intro f hsome
    simp [irq_startup, irq_state_clr_disabled, irqd_clear, hsome]
  refine ⟨hret, fun f hsome hlo hhi => ?_, fun f hsome hlo hhi => ?_, fun hnone => ?_, rfl⟩
  · rw [hret f hsome]
    unfold as_int
    omega
  · rw [hret f hsome]
    unfold as_int
    omega
  · simp [irq_startup, irq_state_clr_disabled, irqd_clear, hnone]

theorem irq_startup_status_witness :
    (sample_desc.irq_data.chip.irq_startup = some (fun _ => 7) ∧
      (-2 ^ 31 : Int) ≤
        (fun _ => 7) (snapshot { irq_state_clr_disabled sample_desc with depth := 0 }) ∧
      (fun _ => (7 : Int)) (snapshot { irq_state_clr_disabled sample_desc with depth := 0 }) <
        2 ^ 31 ∧
      (irq_startup sample_desc false).1 =
        (fun _ => 7) (snapshot { irq_state_clr_disabled sample_desc with depth := 0 })) ∧
    (high_status_desc.irq_data.chip.irq_startup = some (fun _ => 4294967274) ∧
      (2 ^ 31 : Int) ≤
        (fun _ => 4294967274)
          (snapshot { irq_state_clr_disabled high_status_desc with depth := 0 }) ∧
      (fun _ => (4294967274 : Int))
          (snapshot { irq_state_clr_disabled high_status_desc with depth := 0 }) < 2 ^ 32 ∧
      (irq_startup high_status_desc false).1 =
        (fun _ => 4294967274)
          (snapshot { irq_state_clr_disabled high_status_desc with depth := 0 }) - 2 ^ 32) ∧
    (bare_desc.irq_data.chip.irq_startup = none ∧ (irq_startup bare_desc false).1 = 0) :=
  ⟨⟨rfl, by decide, by decide,
      (irq_startup_status sample_desc false).2.1 (fun _ => 7) rfl (by decide) (by decide)⟩,
    ⟨rfl, by decide, by decide,
      (irq_startup_status high_status_desc false).2.2.1 (fun _ => 4294967274) rfl
        (by decide) (by decide)⟩,
    ⟨rfl, (irq_startup_status bare_desc false).2.2.2.1 rfl⟩⟩

/-- C6: `irq_shutdown` sets the masked flag, then calls `irq_domain_deactivate_irq`, which
already reads the flag as set, then calls the chip's shutdown exactly when the chip has
one; the deactivation call is made either way. -/
theorem irq_shutdown_order (desc : irq_desc) :
    (irq_shutdown desc).1 = irq_state_set_masked desc ∧
    (irq_shutdown desc).2 =
      call.irq_domain_deactivate_irq (snapshot (irq_state_set_masked desc)) ::
        (if desc.irq_data.chip.irq_shutdown = true then
          [call.chip_irq_shutdown (snapshot (irq_state_set_masked desc))] else []) ∧
    seen_masked (snapshot (irq_state_set_masked desc)) = true ∧
    irqd_irq_masked (irq_shutdown desc).1 = true := by
  have hbit : seen_masked (snapshot (irq_state_set_masked desc)) = true := by
    simp [seen_masked, snapshot, irq_state_set_masked, irqd_set, set_masked_bit]
  refine ⟨rfl, ?_, hbit, ?_⟩
  · by_cases h : desc.irq_data.chip.irq_shutdown = true <;>
      simp [irq_shutdown, h, irq_state_set_masked, irqd_set]
  · have h1 : (irq_shutdown desc).1 = irq_state_set_masked desc := rfl
    rw [h1]
    simpa [seen_masked, snapshot, irqd_irq_masked] using hbit

/-- C7: `irq_startup` calls `irq_domain_activate_irq` exactly once, first, and then the
chip's startup exactly once when the chip has one; its calls are `[activate]` or
`[activate, chip startup]`. -/
theorem irq_startup_calls (desc : irq_desc) (resend : Bool) :
    (irq_startup desc resend).2.2 =
      call.irq_domain_activate_irq (snapshot { irq_state_clr_disabled desc with depth := 0 }) ::
        (if desc.irq_data.chip.irq_startup.isSome = true then
          [call.chip_irq_startup (snapshot { irq_state_clr_disabled desc with depth := 0 })]
          else []) := by
  unfold irq_startup
  dsimp only
  cases h : desc.irq_data.chip.irq_startup <;>
    simp [h, irq_state_clr_disabled, irqd_clear]

/-- C8: on an existing line `irq_set_irq_type` hands `type & IRQ_TYPE_SENSE_MASK` to the
trigger routine, returns that routine's status, and keeps the descriptor as the routine
leaves it; so a type and its masked value give the same call and the same result. -/
theorem irq_set_irq_type_masks (set_trigger : irq_desc → Nat → Int × irq_desc)
    (s : irq_state) (irq t : Nat) (desc : irq_desc) (hdesc : irq_get_desc s irq = some desc) :
    (irq_set_irq_type set_trigger s irq t).1 =
      (set_trigger desc (t &&& IRQ_TYPE_SENSE_MASK)).1 ∧
    (irq_set_irq_type set_trigger s irq t).2.calls =
      s.calls ++ [call.irq_set_trigger (snapshot desc) (t &&& IRQ_TYPE_SENSE_MASK)] ∧
    irq_get_desc (irq_set_irq_type set_trigger s irq t).2 irq =
      some (set_trigger desc (t &&& IRQ_TYPE_SENSE_MASK)).2 ∧
    irq_set_irq_type set_trigger s irq t =
      irq_set_irq_type set_trigger s irq (t &&& IRQ_TYPE_SENSE_MASK) := by
  have hmask : t &&& IRQ_TYPE_SENSE_MASK &&& IRQ_TYPE_SENSE_MASK = t &&& IRQ_TYPE_SENSE_MASK := by
    rw [Nat.and_assoc, Nat.and_self]
  have h : ∀ u, irq_set_irq_type set_trigger s irq u =
      ((set_trigger desc (u &&& IRQ_TYPE_SENSE_MASK)).1,
        { put_desc s irq (set_trigger desc (u &&& IRQ_TYPE_SENSE_MASK)).2 with
          calls := s.calls ++
            [call.irq_set_trigger (snapshot desc) (u &&& IRQ_TYPE_SENSE_MASK)] }) := by
    intro u
    simp only [irq_set_irq_type, hdesc, put_desc]
  rw [h t, h (t &&& IRQ_TYPE_SENSE_MASK), hmask]
  refine ⟨rfl, rfl, ?_, rfl⟩
  simp only [put_desc, irq_get_desc, irq_to_desc, if_true]

theorem irq_set_irq_type_masks_witness :
    irq_get_desc sample_state 5 = some sample_desc ∧
    (irq_set_irq_type (fun d ty => (Int.ofNat ty, d)) sample_state 5 0xf3).1 =
      ((fun (d : irq_desc) (ty : Nat) => (Int.ofNat ty, d)) sample_desc
        (0xf3 &&& IRQ_TYPE_SENSE_MASK)).1 ∧
    (irq_set_irq_type (fun d ty => (Int.ofNat ty, d)) sample_state 5 0xf3).2.calls =
      sample_state.calls ++
        [call.irq_set_trigger (snapshot sample_desc) (0xf3 &&& IRQ_TYPE_SENSE_MASK)] ∧
    irq_get_desc (irq_set_irq_type (fun d ty => (Int.ofNat ty, d)) sample_state 5 0xf3).2 5 =
      some ((fun (d : irq_desc) (ty : Nat) => (Int.ofNat ty, d)) sample_desc
        (0xf3 &&& IRQ_TYPE_SENSE_MASK)).2 ∧
    irq_set_irq_type (fun d ty => (Int.ofNat ty, d)) sample_state 5 0xf3 =
      irq_set_irq_type (fun d ty => (Int.ofNat ty, d)) sample_state 5
        (0xf3 &&& IRQ_TYPE_SENSE_MASK) :=
  ⟨rfl, irq_set_irq_type_masks (fun d ty => (Int.ofNat ty, d)) sample_state 5 0xf3
    sample_desc rfl⟩

/-- C9: when line `irq_base + irq_offset` (sum on 32 bits) exists, `irq_set_msi_desc_off`
returns 0 and stores the descriptor pointer on that line; the pointed-to descriptor gets
`irq_base` as its `irq` exactly when the pointer is not null and the offset is 0, and no
MSI descriptor changes otherwise.  `irq_set_msi_desc` is the call with offset 0. -/
theorem irq_set_msi_desc_off_stores (s : irq_state) (irq_base irq_offset : Nat)
    (entry : Option Nat) (desc : irq_desc)
    (hdesc : irq_get_desc s ((irq_base + irq_offset) % UINT_MOD) = some desc) :
    (irq_set_msi_desc_off s irq_base irq_offset entry).1 = 0 ∧
    irq_get_desc (irq_set_msi_desc_off s irq_base irq_offset entry).2
        ((irq_base + irq_offset) % UINT_MOD) =
      some { desc with irq_common_data := { desc.irq_common_data with msi_desc := entry } } ∧
    (∀ p, entry = some p → irq_offset = 0 →
      (irq_set_msi_desc_off s irq_base irq_offset entry).2.msi p =
          { s.msi p with irq := irq_base } ∧
        ∀ a, a ≠ p → (irq_set_msi_desc_off s irq_base irq_offset entry).2.msi a = s.msi a) ∧
    (entry = none ∨ irq_offset ≠ 0 →
      (irq_set_msi_desc_off s irq_base irq_offset entry).2.msi = s.msi) ∧
    irq_set_msi_desc s irq_base entry = irq_set_msi_desc_off s irq_base 0 entry := by
  cases entry with
  | none =>
    have h : irq_set_msi_desc_off s irq_base irq_offset none =
        (0, put_desc s ((irq_base + irq_offset) % UINT_MOD)
          { desc with irq_common_data := { desc.irq_common_data with msi_desc := none } }) := by
      simp only [irq_set_msi_desc_off, hdesc]
    rw [h]
    refine ⟨rfl, ?_, ?_, fun _ => rfl, rfl⟩
    · simp only [put_desc, irq_get_desc, irq_to_desc, if_true]
    · intro p hp
      cases hp
  | some q =>
    by_cases hoff : irq_offset = 0
    · subst hoff
      have h : irq_set_msi_desc_off s irq_base 0 (some q) =
          (0, { put_desc s ((irq_base + 0) % UINT_MOD)
              { desc with irq_common_data := { desc.irq_common_data with msi_desc := some q } }
            with msi := fun a => if a = q then { s.msi q with irq := irq_base } else s.msi a }) := by
        simp only [irq_set_msi_desc_off, hdesc, if_true, put_desc]
      rw [h]
      refine ⟨rfl, ?_, ?_, ?_, h⟩
      · simp only [put_desc, irq_get_desc, irq_to_desc, if_true]
      · intro p hp _
        cases hp
        refine ⟨?_, fun a ha => ?_⟩
        · simp only [if_true]
        · simp only [if_neg ha]
      · intro hor
        rcases hor with hnone | hne
        · cases hnone
        · exact absurd rfl hne
    · have h : irq_set_msi_desc_off s irq_base irq_offset (some q) =
          (0, put_desc s ((irq_base + irq_offset) % UINT_MOD)
            { desc with irq_common_data := { desc.irq_common_data with msi_desc := some q } }) := by
        simp only [irq_set_msi_desc_off, hdesc, if_neg hoff]
      rw [h]
      refine ⟨rfl, ?_, ?_, fun _ => rfl, rfl⟩
      · simp only [put_desc, irq_get_desc, irq_to_desc, if_true]
      · intro p _ hz
        exact absurd hz hoff

theorem irq_set_msi_desc_off_stores_witness :
    irq_get_desc sample_state ((5 + 0) % UINT_MOD) = some sample_desc ∧
    (irq_set_msi_desc_off sample_state 5 0 (some 3)).1 = 0 ∧
    irq_get_desc (irq_set_msi_desc_off sample_state 5 0 (some 3)).2 ((5 + 0) % UINT_MOD) =
      some { sample_desc with
        irq_common_data := { sample_desc.irq_common_data with msi_desc := some 3 } } ∧
    (irq_set_msi_desc_off sample_state 5 0 (some 3)).2.msi 3 =
      { sample_state.msi 3 with irq := 5 } ∧
    (irq_get_desc sample_state ((4 + 1) % UINT_MOD) = some sample_desc ∧
      (irq_set_msi_desc_off sample_state 4 1 (some 3)).2.msi = sample_state.msi) :=
  ⟨rfl, (irq_set_msi_desc_off_stores sample_state 5 0 (some 3) sample_desc rfl).1,
    (irq_set_msi_desc_off_stores sample_state 5 0 (some 3) sample_desc rfl).2.1,
    ((irq_set_msi_desc_off_stores sample_state 5 0 (some 3) sample_desc rfl).2.2.1
      3 rfl rfl).1,
    rfl,
    (irq_set_msi_desc_off_stores sample_state 4 1 (some 3) sample_desc rfl).2.2.2.1
      (Or.inr (by decide))⟩

/-- C10: on a line number without a descriptor every setter returns `-EINVAL` and leaves
the whole state as it was: no descriptor, no MSI descriptor and no recorded call changes,
and the trigger routine plays no part; `irq_get_irq_data` returns a null pointer. -/
theorem unknown_line_einval (s : irq_state) (irq : Nat) (hnone : irq_to_desc s irq = none) :
    (∀ chip, irq_set_chip s irq chip = (-EINVAL, s)) ∧
    (∀ set_trigger type, irq_set_irq_type set_trigger s irq type = (-EINVAL, s)) ∧
    (∀ data, irq_set_handler_data s irq data = (-EINVAL, s)) ∧
    (∀ data, irq_set_chip_data s irq data = (-EINVAL, s)) ∧
    (∀ irq_base irq_offset entry, (irq_base + irq_offset) % UINT_MOD = irq →
      irq_set_msi_desc_off s irq_base irq_offset entry = (-EINVAL, s)) ∧
    irq_get_irq_data s irq = none ∧
    -EINVAL = -22 := by
  have hget : irq_get_desc s irq = none := hnone
  refine ⟨fun chip => ?_, fun trig t => ?_, fun data => ?_, fun data => ?_,
    fun b o e hsum => ?_, ?_, rfl⟩
  · simp [irq_set_chip, hget]
  · simp [irq_set_irq_type, hget]
  · simp [irq_set_handler_data, hget]
  · simp [irq_set_chip_data, hget]
  · simp [irq_set_msi_desc_off, hsum, hget]
  · simp [irq_get_irq_data, hnone]

theorem unknown_line_einval_witness :
    irq_to_desc sample_state 6 = none ∧
    (∀ chip, irq_set_chip sample_state 6 chip = (-EINVAL, sample_state)) ∧
    (∀ set_trigger type,
      irq_set_irq_type set_trigger sample_state 6 type = (-EINVAL, sample_state)) ∧
    (∀ data, irq_set_handler_data sample_state 6 data = (-EINVAL, sample_state)) ∧
    (∀ data, irq_set_chip_data sample_state 6 data = (-EINVAL, sample_state)) ∧
    ((4 + 2) % UINT_MOD = 6 ∧
      irq_set_msi_desc_off sample_state 4 2 (some 3) = (-EINVAL, sample_state)) ∧
    irq_get_irq_data sample_state 6 = none :=
  ⟨rfl, (unknown_line_einval sample_state 6 rfl).1,
    (unknown_line_einval sample_state 6 rfl).2.1,
    (unknown_line_einval sample_state 6 rfl).2.2.1,
    (unknown_line_einval sample_state 6 rfl).2.2.2.1,
    ⟨by decide, (unknown_line_einval sample_state 6 rfl).2.2.2.2.1 4 2 (some 3) (by decide)⟩,
    (unknown_line_einval sample_state 6 rfl).2.2.2.2.2.1⟩

/-- C11: on an existing line `irq_set_chip` with a null chip installs `no_irq_chip`, so the
line still has a chip to dispatch to, and that chip has none of the four operations. -/
theorem irq_set_chip_null_installs_no_irq_chip (s : irq_state) (irq : Nat) (desc : irq_desc)
    (hdesc : irq_get_desc s irq = some desc) :
    (irq_set_chip s irq none).1 = 0 ∧
    irq_get_desc (irq_set_chip s irq none).2 irq = some (with_chip desc no_irq_chip) ∧
    irq_get_irq_data (irq_set_chip s irq none).2 irq =
      some { desc.irq_data with chip := no_irq_chip } ∧
    no_irq_chip.irq_startup.isSome = false ∧
    no_irq_chip.irq_shutdown = false ∧
    no_irq_chip.irq_enable = false ∧
    no_irq_chip.irq_disable = false := by
  have h : irq_set_chip s irq none =
      (0, { put_desc s irq (with_chip desc no_irq_chip) with
        calls := s.calls ++ [call.irq_mark_irq irq] }) := by
    simp only [irq_set_chip, hdesc, with_chip, put_desc]
  rw [h]
  refine ⟨rfl, ?_, ?_, rfl, rfl, rfl, rfl⟩
  · simp only [put_desc, irq_get_desc, irq_to_desc, if_true]
  · simp only [put_desc, irq_get_irq_data, irq_to_desc, if_true, with_chip]

theorem irq_set_chip_null_installs_no_irq_chip_witness :
    irq_get_desc sample_state 5 = some sample_desc ∧
    (irq_set_chip sample_state 5 none).1 = 0 ∧
    irq_get_desc (irq_set_chip sample_state 5 none).2 5 =
      some (with_chip sample_desc no_irq_chip) ∧
    irq_get_irq_data (irq_set_chip sample_state 5 none).2 5 =
      some { sample_desc.irq_data with chip := no_irq_chip } ∧
    no_irq_chip.irq_startup.isSome = false ∧
    no_irq_chip.irq_shutdown = false ∧
    no_irq_chip.irq_enable = false ∧
    no_irq_chip.irq_disable = false :=
  ⟨rfl, irq_set_chip_null_installs_no_irq_chip sample_state 5 sample_desc rfl⟩

/-- C12: on an existing line `irq_set_chip_data`, `irq_set_handler_data` and `irq_set_chip`
with a chip return 0 and replace one field of that line's descriptor (`chip_data`,
`handler_data`, `chip`); the rest of that descriptor, every other line and the MSI
descriptors stay as they were. -/
theorem setters_write_one_field (s : irq_state) (irq : Nat) (desc : irq_desc)
    (hdesc : irq_get_desc s irq = some desc) :
    (∀ data, (irq_set_chip_data s irq data).1 = 0 ∧
      irq_get_desc (irq_set_chip_data s irq data).2 irq =
        some { desc with irq_data := { desc.irq_data with chip_data := data } } ∧
      (∀ j, j ≠ irq → irq_get_desc (irq_set_chip_data s irq data).2 j = irq_get_desc s j) ∧
      (irq_set_chip_data s irq data).2.msi = s.msi) ∧
    (∀ data, (irq_set_handler_data s irq data).1 = 0 ∧
      irq_get_desc (irq_set_handler_data s irq data).2 irq =
        some { desc with
          irq_common_data := { desc.irq_common_data with handler_data := data } } ∧
      (∀ j, j ≠ irq → irq_get_desc (irq_set_handler_data s irq data).2 j = irq_get_desc s j) ∧
      (irq_set_handler_data s irq data).2.msi = s.msi) ∧
    (∀ chip, (irq_set_chip s irq (some chip)).1 = 0 ∧
      irq_get_desc (irq_set_chip s irq (some chip)).2 irq =
        some { desc with irq_data := { desc.irq_data with chip := chip } } ∧
      (∀ j, j ≠ irq → irq_get_desc (irq_set_chip s irq (some chip)).2 j = irq_get_desc s j) ∧
      (irq_set_chip s irq (some chip)).2.msi = s.msi) := by
  refine ⟨fun data => ?_, fun data => ?_, fun chip => ?_⟩
  · have h : irq_set_chip_data s irq data =
        (0, put_desc s irq { desc with irq_data := { desc.irq_data with chip_data := data } }) := by
      simp only [irq_set_chip_data, hdesc]
    rw [h]
    refine ⟨rfl, ?_, fun j hj => ?_, rfl⟩
    · simp only [put_desc, irq_get_desc, irq_to_desc, if_true]
    · simp only [put_desc, irq_get_desc, irq_to_desc, if_neg hj]
  · have h : irq_set_handler_data s irq data =
        (0, put_desc s irq { desc with
          irq_common_data := { desc.irq_common_data with handler_data := data } }) := by
      simp only [irq_set_handler_data, hdesc]
    rw [h]
    refine ⟨rfl, ?_, fun j hj => ?_, rfl⟩
    · simp only [put_desc, irq_get_desc, irq_to_desc, if_true]
    · simp only [put_desc, irq_get_desc, irq_to_desc, if_neg hj]
  · have h : irq_set_chip s irq (some chip) =
        (0, { put_desc s irq { desc with irq_data := { desc.irq_data with chip := chip } } with
          calls := s.calls ++ [call.irq_mark_irq irq] }) := by
      simp only [irq_set_chip, hdesc, put_desc]
    rw [h]
    refine ⟨rfl, ?_, fun j hj => ?_, rfl⟩
    · simp only [put_desc, irq_get_desc, irq_to_desc, if_true]
    · simp only [put_desc, irq_get_desc, irq_to_desc, if_neg hj]

theorem setters_write_one_field_witness :
    irq_get_desc sample_state 5 = some sample_desc ∧
    ((irq_set_chip_data sample_state 5 11).1 = 0 ∧
      irq_get_desc (irq_set_chip_data sample_state 5 11).2 5 =
        some { sample_desc with irq_data := { sample_desc.irq_data with chip_data := 11 } }) ∧
    ((irq_set_handler_data sample_state 5 12).1 = 0 ∧
      irq_get_desc (irq_set_handler_data sample_state 5 12).2 5 =
        some { sample_desc with
          irq_common_data := { sample_desc.irq_common_data with handler_data := 12 } }) ∧
    ((irq_set_chip sample_state 5 (some no_irq_chip)).1 = 0 ∧
      irq_get_desc (irq_set_chip sample_state 5 (some no_irq_chip)).2 5 =
        some { sample_desc with irq_data := { sample_desc.irq_data with chip := no_irq_chip } }) :=
  ⟨rfl,
    ⟨((setters_write_one_field sample_state 5 sample_desc rfl).1 11).1,
      ((setters_write_one_field sample_state 5 sample_desc rfl).1 11).2.1⟩,
    ⟨((setters_write_one_field sample_state 5 sample_desc rfl).2.1 12).1,
      ((setters_write_one_field sample_state 5 sample_desc rfl).2.1 12).2.1⟩,
    ⟨((setters_write_one_field sample_state 5 sample_desc rfl).2.2 no_irq_chip).1,
      ((setters_write_one_field sample_state 5 sample_desc rfl).2.2 no_irq_chip).2.1⟩⟩

/-- C15: `bad_chained_irq` returns `IRQ_NONE` for every line number and `dev_id` and leaves
every descriptor and MSI descriptor as it was; it is the handler of `chained_action`. -/
theorem bad_chained_irq_not_handled (s : irq_state) (irq : Int) (dev_id : Nat) :
    (bad_chained_irq s irq dev_id).1 = irqreturn_t.IRQ_NONE ∧
    (bad_chained_irq s irq dev_id).2.descs = s.descs ∧
    (bad_chained_irq s irq dev_id).2.msi = s.msi ∧
    (bad_chained_irq s irq dev_id).2.calls = s.calls ++ [call.WARN_ONCE irq] ∧
    chained_action.handler = bad_chained_irq :=
  ⟨rfl, rfl, rfl, rfl, rfl⟩

/-! ### Further facts about the flag bits -/

/-- Setting the disabled bit does not touch the masked bit. -/
theorem set_disabled_keeps_masked (s : Nat) :
    (s ||| IRQD_IRQ_DISABLED) &&& IRQD_IRQ_MASKED = s &&& IRQD_IRQ_MASKED := by
  have h : IRQD_IRQ_MASKED &&& IRQD_IRQ_DISABLED = 0 := by decide
  rw [Nat.and_comm, Nat.and_or_distrib_left, h, Nat.or_zero, Nat.and_comm]

/-- Setting the masked bit does not touch the disabled bit. -/
theorem set_masked_keeps_disabled (s : Nat) :
    (s ||| IRQD_IRQ_MASKED) &&& IRQD_IRQ_DISABLED = s &&& IRQD_IRQ_DISABLED := by
  have h : IRQD_IRQ_DISABLED &&& IRQD_IRQ_MASKED = 0 := by decide
  rw [Nat.and_comm, Nat.and_or_distrib_left, h, Nat.or_zero, Nat.and_comm]

/-- The descriptor `irq_startup` returns, on a chip without a startup operation. -/
theorem irq_startup_desc_none (desc : irq_desc) (resend : Bool)
    (h : desc.irq_data.chip.irq_startup = none) :
    (irq_startup desc resend).2.1 = { irq_state_clr_disabled desc with depth := 0 } := by
  simp [irq_startup, irq_state_clr_disabled, irqd_clear, h]

/-- The descriptor `irq_startup` returns, on a chip with a startup operation. -/
theorem irq_startup_desc_some (desc : irq_desc) (resend : Bool) (f : irq_snapshot → Int)
    (h : desc.irq_data.chip.irq_startup = some f) :
    (irq_startup desc resend).2.1 =
      irq_state_clr_masked { irq_state_clr_disabled desc with depth := 0 } := by
  simp [irq_startup, irq_state_clr_disabled, irqd_clear, h]

/-- C16: a second `irq_startup` right after the first, and a second `irq_shutdown` right
after the first, return the descriptor the first call returned; in particular the depth,
the disabled flag and the masked flag are those left by one call. -/
theorem startup_shutdown_idempotent (desc : irq_desc) (r1 r2 : Bool) :
    (irq_startup (irq_startup desc r1).2.1 r2).2.1 = (irq_startup desc r1).2.1 ∧
    (irq_startup (irq_startup desc r1).2.1 r2).2.1.depth = (irq_startup desc r1).2.1.depth ∧
    irqd_irq_disabled (irq_startup (irq_startup desc r1).2.1 r2).2.1 =
      irqd_irq_disabled (irq_startup desc r1).2.1 ∧
    irqd_irq_masked (irq_startup (irq_startup desc r1).2.1 r2).2.1 =
      irqd_irq_masked (irq_startup desc r1).2.1 ∧
    (irq_shutdown (irq_shutdown desc).1).1 = (irq_shutdown desc).1 ∧
    (irq_shutdown (irq_shutdown desc).1).1.depth = (irq_shutdown desc).1.depth ∧
    irqd_irq_disabled (irq_shutdown (irq_shutdown desc).1).1 =
      irqd_irq_disabled (irq_shutdown desc).1 ∧
    irqd_irq_masked (irq_shutdown (irq_shutdown desc).1).1 =
      irqd_irq_masked (irq_shutdown desc).1 := by
  have hstart : (irq_startup (irq_startup desc r1).2.1 r2).2.1 = (irq_startup desc r1).2.1 := by
    cases h : desc.irq_data.chip.irq_startup with
    | none =>
      rw [irq_startup_desc_none desc r1 h]
      rw [irq_startup_desc_none { irq_state_clr_disabled desc with depth := 0 } r2 h]
      simp only [irq_state_clr_disabled, irqd_clear, Nat.and_assoc, Nat.and_self]
    | some f =>
      rw [irq_startup_desc_some desc r1 f h]
      rw [irq_startup_desc_some
        (irq_state_clr_masked { irq_state_clr_disabled desc with depth := 0 }) r2 f h]
      have hc : ((UINT_MOD - 1) ^^^ IRQD_IRQ_DISABLED) &&&
          (((UINT_MOD - 1) ^^^ IRQD_IRQ_MASKED) &&&
            (((UINT_MOD - 1) ^^^ IRQD_IRQ_DISABLED) &&& ((UINT_MOD - 1) ^^^ IRQD_IRQ_MASKED))) =
          ((UINT_MOD - 1) ^^^ IRQD_IRQ_DISABLED) &&& ((UINT_MOD - 1) ^^^ IRQD_IRQ_MASKED) := by
        decide
      simp only [irq_state_clr_disabled, irq_state_clr_masked, irqd_clear, Nat.and_assoc, hc]
  have hshut : (irq_shutdown (irq_shutdown desc).1).1 = (irq_shutdown desc).1 := by
    have h1 : ∀ d : irq_desc, (irq_shutdown d).1 = irq_state_set_masked d := fun _ => rfl
    rw [h1, h1]
    simp only [irq_state_set_masked, irqd_set, Nat.or_assoc, Nat.or_self]
  refine ⟨hstart, ?_, ?_, ?_, hshut, ?_, ?_, ?_⟩
  · rw [hstart]
  · rw [hstart]
  · rw [hstart]
  · rw [hshut]
  · rw [hshut]
  · rw [hshut]

/-- The calls `irq_enable` makes, given the value the decremented counter takes. -/
theorem irq_enable_calls (desc : irq_desc) (r : Nat)
    (hmod : (desc.depth + UINT_MOD - 1) % UINT_MOD = r) :
    (irq_enable desc).2 =
      if r = 0 ∧ desc.irq_data.chip.irq_enable = true then
        [call.chip_irq_enable (snapshot { desc with depth := r })]
      else [] := by
  obtain ⟨⟨st, hd, md⟩, dat, dep⟩ := desc
  dsimp only at hmod
  simp [irq_enable, hmod, snapshot]

/-- The calls `irq_disable` makes. -/
theorem irq_disable_calls (desc : irq_desc) (r : Nat)
    (hmod : (desc.depth + 1) % UINT_MOD = r) :
    (irq_disable desc).2 =
      if desc.depth = 0 ∧ desc.irq_data.chip.irq_disable = true then
        [call.chip_irq_disable (snapshot { irq_state_set_disabled desc with depth := r })]
      else [] := by
  obtain ⟨⟨st, hd, md⟩, dat, dep⟩ := desc
  dsimp only at hmod
  simp [irq_disable, hmod, snapshot, irq_state_set_disabled, irqd_set]

/-- C17: `irq_enable` at depth 0 wraps the counter to `2 ^ 32 - 1`, makes no call even on
a chip that has `irq_enable`, and returns with the disabled flag clear. -/
theorem irq_enable_underflow (desc : irq_desc) (hdepth : desc.depth = 0) :
    (irq_enable desc).1.depth = 2 ^ 32 - 1 ∧
    (irq_enable desc).1.depth = UINT_MOD - 1 ∧
    (irq_enable desc).2 = [] ∧
    irqd_irq_disabled (irq_enable desc).1 = false := by
  have hmod : (desc.depth + UINT_MOD - 1) % UINT_MOD = 4294967295 := by
    rw [hdepth, UINT_MOD_eq]
  refine ⟨?_, ?_, ?_, ?_⟩
  · rw [irq_enable_depth, hmod]
    decide
  · rw [irq_enable_depth, hmod, UINT_MOD_eq]
  · rw [irq_enable_calls desc 4294967295 hmod, if_neg]
    intro h
    exact absurd h.1 (by decide)
  · unfold irqd_irq_disabled
    rw [irq_enable_state, clr_disabled_bit]
    rfl

theorem irq_enable_underflow_witness :
    sample_desc.depth = 0 ∧
    sample_desc.irq_data.chip.irq_enable = true ∧
    (irq_enable sample_desc).1.depth = 2 ^ 32 - 1 ∧
    (irq_enable sample_desc).1.depth = UINT_MOD - 1 ∧
    (irq_enable sample_desc).2 = [] ∧
    irqd_irq_disabled (irq_enable sample_desc).1 = false :=
  ⟨rfl, rfl, irq_enable_underflow sample_desc rfl⟩

/-- The descriptor `irq_startup` returns keeps `irq_data`, `handler_data` and `msi_desc`. -/
theorem irq_startup_frame (desc : irq_desc) (resend : Bool) :
    (irq_startup desc resend).2.1.irq_data = desc.irq_data ∧
    (irq_startup desc resend).2.1.irq_common_data.handler_data =
      desc.irq_common_data.handler_data ∧
    (irq_startup desc resend).2.1.irq_common_data.msi_desc =
      desc.irq_common_data.msi_desc := by
  cases h : desc.irq_data.chip.irq_startup with
  | none => rw [irq_startup_desc_none desc resend h]; exact ⟨rfl, rfl, rfl⟩
  | some f => rw [irq_startup_desc_some desc resend f h]; exact ⟨rfl, rfl, rfl⟩

/-- C20: `irq_disable` and `irq_enable` leave the masked flag alone; `irq_shutdown` leaves
the depth and the disabled flag alone; and none of the four transitions changes the chip
pointer, `chip_data`, `handler_data` or `msi_desc`. -/
theorem lifecycle_frame (desc : irq_desc) :
    irqd_irq_masked (irq_disable desc).1 = irqd_irq_masked desc ∧
    irqd_irq_masked (irq_enable desc).1 = irqd_irq_masked desc ∧
    (irq_shutdown desc).1.depth = desc.depth ∧
    irqd_irq_disabled (irq_shutdown desc).1 = irqd_irq_disabled desc ∧
    (∀ op : lifecycle_op,
      (step op desc).1.irq_data.chip = desc.irq_data.chip ∧
      (step op desc).1.irq_data.chip_data = desc.irq_data.chip_data ∧
      (step op desc).1.irq_common_data.handler_data = desc.irq_common_data.handler_data ∧
      (step op desc).1.irq_common_data.msi_desc = desc.irq_common_data.msi_desc) := by
  refine ⟨?_, ?_, rfl, ?_, fun op => ?_⟩
  · unfold irqd_irq_masked
    rw [irq_disable_state, set_disabled_keeps_masked]
  · unfold irqd_irq_masked
    rw [irq_enable_state, clr_disabled_keeps_masked]
  · have h : (irq_shutdown desc).1.irq_common_data.state_use_accessors =
        desc.irq_common_data.state_use_accessors ||| IRQD_IRQ_MASKED := rfl
    unfold irqd_irq_disabled
    rw [h, set_masked_keeps_disabled]
  · cases op with
    | startup resend =>
      have h := irq_startup_frame desc resend
      have hs : (step (lifecycle_op.startup resend) desc).1 = (irq_startup desc resend).2.1 := rfl
      rw [hs]
      exact ⟨by rw [h.1], by rw [h.1], h.2.1, h.2.2⟩
    | shutdown => exact ⟨rfl, rfl, rfl, rfl⟩
    | disable => exact ⟨rfl, rfl, rfl, rfl⟩
    | enable => exact ⟨rfl, rfl, rfl, rfl⟩

/-! ### Bookkeeping and chip capabilities -/

theorem irq_disable_common (desc : irq_desc) :
    (irq_disable desc).1.irq_common_data =
      { desc.irq_common_data with
        state_use_accessors := desc.irq_common_data.state_use_accessors ||| IRQD_IRQ_DISABLED } :=
  rfl

theorem irq_enable_common (desc : irq_desc) :
    (irq_enable desc).1.irq_common_data =
      { desc.irq_common_data with
        state_use_accessors :=
          desc.irq_common_data.state_use_accessors &&& ((UINT_MOD - 1) ^^^ IRQD_IRQ_DISABLED) } :=
  rfl

theorem irq_shutdown_common (desc : irq_desc) :
    (irq_shutdown desc).1.irq_common_data =
      { desc.irq_common_data with
        state_use_accessors := desc.irq_common_data.state_use_accessors ||| IRQD_IRQ_MASKED } :=
  rfl

theorem irq_shutdown_depth (desc : irq_desc) : (irq_shutdown desc).1.depth = desc.depth := rfl

/-- Disable, enable and shutdown compute the new common data and depth from the old
common data and depth alone. -/
theorem step_bookkeeping (op : lifecycle_op) (d1 d2 : irq_desc)
    (hop : op = lifecycle_op.disable ∨ op = lifecycle_op.enable ∨ op = lifecycle_op.shutdown)
    (hc : d1.irq_common_data = d2.irq_common_data) (hd : d1.depth = d2.depth) :
    (step op d1).1.irq_common_data = (step op d2).1.irq_common_data ∧
    (step op d1).1.depth = (step op d2).1.depth := by
  rcases hop with h | h | h <;> subst h
  · exact ⟨by rw [step_disable, step_disable, irq_disable_common, irq_disable_common, hc],
      by rw [step_disable, step_disable, irq_disable_depth, irq_disable_depth, hd]⟩
  · exact ⟨by rw [step_enable, step_enable, irq_enable_common, irq_enable_common, hc],
      by rw [step_enable, step_enable, irq_enable_depth, irq_enable_depth, hd]⟩
  · have hs : ∀ d, step lifecycle_op.shutdown d = irq_shutdown d := fun _ => rfl
    exact ⟨by rw [hs, hs, irq_shutdown_common, irq_shutdown_common, hc],
      by rw [hs, hs, irq_shutdown_depth, irq_shutdown_depth, hd]⟩

theorem run_bookkeeping (ops : List lifecycle_op) (d1 d2 : irq_desc)
    (hops : ∀ op ∈ ops,
      op = lifecycle_op.disable ∨ op = lifecycle_op.enable ∨ op = lifecycle_op.shutdown)
    (hc : d1.irq_common_data = d2.irq_common_data) (hd : d1.depth = d2.depth) :
    (run ops d1).1.irq_common_data = (run ops d2).1.irq_common_data ∧
    (run ops d1).1.depth = (run ops d2).1.depth := by
  induction ops generalizing d1 d2 with
  | nil => exact ⟨hc, hd⟩
  | cons op ops ih =>
    have hstep := step_bookkeeping op d1 d2 (hops op (List.mem_cons_self _ _)) hc hd
    have h1 : ∀ d, (run (op :: ops) d).1 = (run ops (step op d).1).1 := fun _ => rfl
    rw [h1, h1]
    exact ih _ _ (fun o ho => hops o (List.mem_cons_of_mem _ ho)) hstep.1 hstep.2

/-- C14: from the same record, any sequence of `irq_disable`, `irq_enable` and
`irq_shutdown` calls leaves the same depth, disabled flag and masked flag whatever chip is
installed, in particular for two chips that differ only in which of these operations they
define; a transition whose operation is absent makes no chip call. -/
theorem bookkeeping_independent_of_chip (desc : irq_desc) (c1 c2 : irq_chip)
    (ops : List lifecycle_op)
    (hops : ∀ op ∈ ops,
      op = lifecycle_op.disable ∨ op = lifecycle_op.enable ∨ op = lifecycle_op.shutdown) :
    (run ops (with_chip desc c1)).1.depth = (run ops (with_chip desc c2)).1.depth ∧
    irqd_irq_disabled (run ops (with_chip desc c1)).1 =
      irqd_irq_disabled (run ops (with_chip desc c2)).1 ∧
    irqd_irq_masked (run ops (with_chip desc c1)).1 =
      irqd_irq_masked (run ops (with_chip desc c2)).1 ∧
    (∀ d : irq_desc, d.irq_data.chip.irq_disable = false → (irq_disable d).2 = []) ∧
    (∀ d : irq_desc, d.irq_data.chip.irq_enable = false → (irq_enable d).2 = []) ∧
    (∀ d : irq_desc, d.irq_data.chip.irq_shutdown = false →
      (irq_shutdown d).2 = [call.irq_domain_deactivate_irq (snapshot (irq_state_set_masked d))]) := by
  have h := run_bookkeeping ops (with_chip desc c1) (with_chip desc c2) hops rfl rfl
  refine ⟨h.2, ?_, ?_, fun d hd => ?_, fun d hd => ?_, fun d hd => ?_⟩
  · unfold irqd_irq_disabled
    rw [h.1]
  · unfold irqd_irq_masked
    rw [h.1]
  · rw [irq_disable_calls d _ rfl, if_neg]
    intro hc
    rw [hd] at hc
    exact absurd hc.2 (by decide)
  · rw [irq_enable_calls d _ rfl, if_neg]
    intro hc
    rw [hd] at hc
    exact absurd hc.2 (by decide)
  · have hs : (irq_shutdown d).2 =
        if d.irq_data.chip.irq_shutdown = true then
          [call.irq_domain_deactivate_irq (snapshot (irq_state_set_masked d))] ++
            [call.chip_irq_shutdown (snapshot (irq_state_set_masked d))]
        else [call.irq_domain_deactivate_irq (snapshot (irq_state_set_masked d))] := rfl
    rw [hs, if_neg]
    rw [hd]
    decide

theorem bookkeeping_independent_of_chip_witness :
    (∀ op ∈ [lifecycle_op.disable, lifecycle_op.disable, lifecycle_op.shutdown,
        lifecycle_op.enable],
      op = lifecycle_op.disable ∨ op = lifecycle_op.enable ∨ op = lifecycle_op.shutdown) ∧
    (run [lifecycle_op.disable, lifecycle_op.disable, lifecycle_op.shutdown,
        lifecycle_op.enable] (with_chip sample_desc sample_chip)).1.depth =
      (run [lifecycle_op.disable, lifecycle_op.disable, lifecycle_op.shutdown,
        lifecycle_op.enable] (with_chip sample_desc no_irq_chip)).1.depth ∧
    irqd_irq_disabled (run [lifecycle_op.disable, lifecycle_op.disable, lifecycle_op.shutdown,
        lifecycle_op.enable] (with_chip sample_desc sample_chip)).1 =
      irqd_irq_disabled (run [lifecycle_op.disable, lifecycle_op.disable,
        lifecycle_op.shutdown, lifecycle_op.enable] (with_chip sample_desc no_irq_chip)).1 ∧
    irqd_irq_masked (run [lifecycle_op.disable, lifecycle_op.disable, lifecycle_op.shutdown,
        lifecycle_op.enable] (with_chip sample_desc sample_chip)).1 =
      irqd_irq_masked (run [lifecycle_op.disable, lifecycle_op.disable,
        lifecycle_op.shutdown, lifecycle_op.enable] (with_chip sample_desc no_irq_chip)).1 :=
  ⟨by decide,
    (bookkeeping_independent_of_chip sample_desc sample_chip no_irq_chip
      [lifecycle_op.disable, lifecycle_op.disable, lifecycle_op.shutdown, lifecycle_op.enable]
      (by decide)).1,
    (bookkeeping_independent_of_chip sample_desc sample_chip no_irq_chip
      [lifecycle_op.disable, lifecycle_op.disable, lifecycle_op.shutdown, lifecycle_op.enable]
      (by decide)).2.1,
    (bookkeeping_independent_of_chip sample_desc sample_chip no_irq_chip
      [lifecycle_op.disable, lifecycle_op.disable, lifecycle_op.shutdown, lifecycle_op.enable]
      (by decide)).2.2.1⟩

/-! ### Well-nested sequences of disables and enables -/

theorem irq_startup_depth (desc : irq_desc) (resend : Bool) :
    (irq_startup desc resend).2.1.depth = 0 := by
  cases h : desc.irq_data.chip.irq_startup with
  | none => rw [irq_startup_desc_none desc resend h]
  | some f => rw [irq_startup_desc_some desc resend f h]; rfl

theorem nesting_ok_of_start (ops : List lifecycle_op) (hnest : never_more_enables ops)
    (hwrap : below_wrap ops) : nesting_ok 0 ops := by
  intro n
  have h1 := hnest n
  have h2 := hwrap n
  constructor <;> omega

/-- After a disable the rest of the sequence is well nested one level deeper. -/
theorem nesting_ok_disable (k : Nat) (ops : List lifecycle_op)
    (h : nesting_ok k (lifecycle_op.disable :: ops)) :
    k + 1 < UINT_MOD ∧ nesting_ok (k + 1) ops := by
  constructor
  · have h1 := (h 1).2
    simp [disables, enables] at h1
    omega
  · intro n
    have hn := h (n + 1)
    simp [disables, enables] at hn
    constructor <;> omega

/-- Before an enable the depth is at least 1, and the rest of the sequence is well nested
one level up. -/
theorem nesting_ok_enable (k : Nat) (ops : List lifecycle_op)
    (h : nesting_ok k (lifecycle_op.enable :: ops)) :
    1 ≤ k ∧ k < UINT_MOD ∧ nesting_ok (k - 1) ops := by
  have h1 := (h 1).1
  simp [disables, enables] at h1
  have h0 := (h 0).2
  simp [disables, enables] at h0
  refine ⟨h1, h0, ?_⟩
  intro n
  have hn := h (n + 1)
  simp [disables, enables] at hn
  constructor <;> omega

theorem nesting_ok_take (k : Nat) (ops : List lifecycle_op) (n : Nat) (h : nesting_ok k ops) :
    nesting_ok k (ops.take n) := by
  intro m
  rw [List.take_take]
  exact h (min m n)

theorem only_disable_enable_take (ops : List lifecycle_op) (n : Nat)
    (h : only_disable_enable ops) : only_disable_enable (ops.take n) :=
  fun op hop => h op (List.mem_of_mem_take hop)

theorem run_cons_desc (op : lifecycle_op) (ops : List lifecycle_op) (desc : irq_desc) :
    (run (op :: ops) desc).1 = (run ops (step op desc).1).1 := rfl

theorem run_cons_calls (op : lifecycle_op) (ops : List lifecycle_op) (desc : irq_desc) :
    (run (op :: ops) desc).2 = (step op desc).2 :: (run ops (step op desc).1).2 := rfl

/-- The depth after a well-nested sequence, counted from the depth it starts at. -/
theorem run_depth (ops : List lifecycle_op) (desc : irq_desc) (hops : only_disable_enable ops)
    (hnest : nesting_ok desc.depth ops) :
    (run ops desc).1.depth + enables ops = desc.depth + disables ops := by
  induction ops generalizing desc with
  | nil => rfl
  | cons op ops ih =>
    have hrest : only_disable_enable ops := fun o ho => hops o (List.mem_cons_of_mem _ ho)
    rw [run_cons_desc]
    rcases hops op (List.mem_cons_self _ _) with h | h <;> subst h
    · obtain ⟨hlt, hok⟩ := nesting_ok_disable _ _ hnest
      have hd : (step lifecycle_op.disable desc).1.depth = desc.depth + 1 := by
        rw [step_disable, irq_disable_depth, Nat.mod_eq_of_lt hlt]
      have := ih (step lifecycle_op.disable desc).1 hrest (by rw [hd]; exact hok)
      rw [hd] at this
      simp [disables, enables]
      omega
    · obtain ⟨hpos, hlt, hok⟩ := nesting_ok_enable _ _ hnest
      have hd : (step lifecycle_op.enable desc).1.depth = desc.depth - 1 := by
        rw [step_enable, irq_enable_depth]
        rw [UINT_MOD_eq] at hlt ⊢
        omega
      have := ih (step lifecycle_op.enable desc).1 hrest (by rw [hd]; exact hok)
      rw [hd] at this
      simp [disables, enables]
      omega

/-- C13: after `irq_startup`, a sequence of disables and enables in which no prefix has
more enables than disables, and the outstanding count stays below `2 ^ 32`, leaves the depth
equal to the number of disables minus the number of enables. -/
theorem depth_counts_outstanding_disables (desc : irq_desc) (resend : Bool)
    (ops : List lifecycle_op) (hops : only_disable_enable ops)
    (hnest : never_more_enables ops) (hwrap : below_wrap ops) :
    (run ops (irq_startup desc resend).2.1).1.depth = disables ops - enables ops := by
  have h := run_depth ops (irq_startup desc resend).2.1 hops
    (by rw [irq_startup_depth]; exact nesting_ok_of_start ops hnest hwrap)
  rw [irq_startup_depth] at h
  omega

theorem depth_counts_outstanding_disables_witness :
    only_disable_enable [lifecycle_op.disable, lifecycle_op.disable, lifecycle_op.enable] ∧
    never_more_enables [lifecycle_op.disable, lifecycle_op.disable, lifecycle_op.enable] ∧
    below_wrap [lifecycle_op.disable, lifecycle_op.disable, lifecycle_op.enable] ∧
    (run [lifecycle_op.disable, lifecycle_op.disable, lifecycle_op.enable]
      (irq_startup sample_desc false).2.1).1.depth =
        disables [lifecycle_op.disable, lifecycle_op.disable, lifecycle_op.enable] -
          enables [lifecycle_op.disable, lifecycle_op.disable, lifecycle_op.enable] :=
  have h1 : only_disable_enable
      [lifecycle_op.disable, lifecycle_op.disable, lifecycle_op.enable] := by
    intro op hop
    simp at hop
    rcases hop with h | h <;> simp [h]
  have h2 : never_more_enables
      [lifecycle_op.disable, lifecycle_op.disable, lifecycle_op.enable] := by
    intro n
    rcases n with _ | _ | _ | n <;> simp [disables, enables]
  have h3 : below_wrap
      [lifecycle_op.disable, lifecycle_op.disable, lifecycle_op.enable] := by
    intro n
    rcases n with _ | _ | _ | n <;> simp [disables, enables, UINT_MOD_eq]
  ⟨h1, h2, h3, depth_counts_outstanding_disables sample_desc false
    [lifecycle_op.disable, lifecycle_op.disable, lifecycle_op.enable] h1 h2 h3⟩

/-- Along a well-nested sequence the disabled flag is only ever set at nonzero depth. -/
theorem run_disabled_flag (ops : List lifecycle_op) (desc : irq_desc)
    (hops : only_disable_enable ops) (hnest : nesting_ok desc.depth ops)
    (hinv : irqd_irq_disabled desc = true → 0 < desc.depth) :
    irqd_irq_disabled (run ops desc).1 = true → 0 < (run ops desc).1.depth := by
  induction ops generalizing desc with
  | nil => exact hinv
  | cons op ops ih =>
    have hrest : only_disable_enable ops := fun o ho => hops o (List.mem_cons_of_mem _ ho)
    rw [run_cons_desc]
    rcases hops op (List.mem_cons_self _ _) with h | h <;> subst h
    · obtain ⟨hlt, hok⟩ := nesting_ok_disable _ _ hnest
      have hd : (step lifecycle_op.disable desc).1.depth = desc.depth + 1 := by
        rw [step_disable, irq_disable_depth, Nat.mod_eq_of_lt hlt]
      exact ih (step lifecycle_op.disable desc).1 hrest (by rw [hd]; exact hok)
        (fun _ => by rw [hd]; omega)
    · obtain ⟨hpos, hlt, hok⟩ := nesting_ok_enable _ _ hnest
      have hd : (step lifecycle_op.enable desc).1.depth = desc.depth - 1 := by
        rw [step_enable, irq_enable_depth]
        rw [UINT_MOD_eq] at hlt ⊢
        omega
      have hflag : irqd_irq_disabled (step lifecycle_op.enable desc).1 = false := by
        rw [step_enable]
        unfold irqd_irq_disabled
        rw [irq_enable_state, clr_disabled_bit]
        rfl
      exact ih (step lifecycle_op.enable desc).1 hrest (by rw [hd]; exact hok)
        (fun hf => by rw [hflag] at hf; cases hf)

theorem irq_startup_not_disabled (desc : irq_desc) (resend : Bool) :
    irqd_irq_disabled (irq_startup desc resend).2.1 = false := by
  unfold irqd_irq_disabled
  cases h : desc.irq_data.chip.irq_startup with
  | none =>
    rw [irq_startup_desc_none desc resend h]
    have hs : ({ irq_state_clr_disabled desc with depth := 0 } : irq_desc).irq_common_data.state_use_accessors
        = desc.irq_common_data.state_use_accessors &&& ((UINT_MOD - 1) ^^^ IRQD_IRQ_DISABLED) := rfl
    rw [hs, clr_disabled_bit]
    rfl
  | some f =>
    rw [irq_startup_desc_some desc resend f h]
    have hs : (irq_state_clr_masked { irq_state_clr_disabled desc with depth := 0 }).irq_common_data.state_use_accessors
        = (desc.irq_common_data.state_use_accessors &&& ((UINT_MOD - 1) ^^^ IRQD_IRQ_DISABLED))
          &&& ((UINT_MOD - 1) ^^^ IRQD_IRQ_MASKED) := rfl
    rw [hs, clr_masked_keeps_disabled, clr_disabled_bit]
    rfl

/-- C19: after `irq_startup` and a well-nested sequence of disables and enables below the
wrap limit, a set disabled flag implies a nonzero depth, and depth 0 implies a clear flag.
The converse is not an invariant: after disable, disable, enable the depth is 1 and the
flag is clear. -/
theorem disabled_flag_implies_depth (desc : irq_desc) (resend : Bool)
    (ops : List lifecycle_op) (hops : only_disable_enable ops)
    (hnest : never_more_enables ops) (hwrap : below_wrap ops) :
    (irqd_irq_disabled (run ops (irq_startup desc resend).2.1).1 = true →
      0 < (run ops (irq_startup desc resend).2.1).1.depth) ∧
    ((run ops (irq_startup desc resend).2.1).1.depth = 0 →
      irqd_irq_disabled (run ops (irq_startup desc resend).2.1).1 = false) ∧
    (0 < (run [lifecycle_op.disable, lifecycle_op.disable, lifecycle_op.enable]
        (irq_startup desc resend).2.1).1.depth ∧
      irqd_irq_disabled (run [lifecycle_op.disable, lifecycle_op.disable, lifecycle_op.enable]
        (irq_startup desc resend).2.1).1 = false) := by
  have hinv := run_disabled_flag ops (irq_startup desc resend).2.1 hops
    (by rw [irq_startup_depth]; exact nesting_ok_of_start ops hnest hwrap)
    (fun hf => by rw [irq_startup_not_disabled] at hf; cases hf)
  refine ⟨hinv, fun hz => ?_, ?_, ?_⟩
  · cases hf : irqd_irq_disabled (run ops (irq_startup desc resend).2.1).1 with
    | false => rfl
    | true =>
      have := hinv hf
      omega
  · have hrun : (run [lifecycle_op.disable, lifecycle_op.disable, lifecycle_op.enable]
          (irq_startup desc resend).2.1).1 =
        (irq_enable (irq_disable (irq_disable (irq_startup desc resend).2.1).1).1).1 := rfl
    rw [hrun, irq_enable_depth, irq_disable_depth, irq_disable_depth, irq_startup_depth,
      UINT_MOD_eq]
    decide
  · have hrun : (run [lifecycle_op.disable, lifecycle_op.disable, lifecycle_op.enable]
          (irq_startup desc resend).2.1).1 =
        (irq_enable (irq_disable (irq_disable (irq_startup desc resend).2.1).1).1).1 := rfl
    rw [hrun]
    unfold irqd_irq_disabled
    rw [irq_enable_state, clr_disabled_bit]
    rfl

theorem disabled_flag_implies_depth_witness :
    only_disable_enable [lifecycle_op.disable, lifecycle_op.enable, lifecycle_op.disable] ∧
    never_more_enables [lifecycle_op.disable, lifecycle_op.enable, lifecycle_op.disable] ∧
    below_wrap [lifecycle_op.disable, lifecycle_op.enable, lifecycle_op.disable] ∧
    irqd_irq_disabled (run [lifecycle_op.disable, lifecycle_op.enable, lifecycle_op.disable]
      (irq_startup sample_desc false).2.1).1 = true ∧
    0 < (run [lifecycle_op.disable, lifecycle_op.enable, lifecycle_op.disable]
      (irq_startup sample_desc false).2.1).1.depth :=
  have h1 : only_disable_enable
      [lifecycle_op.disable, lifecycle_op.enable, lifecycle_op.disable] := by
    unfold only_disable_enable
    decide
  have h2 : never_more_enables
      [lifecycle_op.disable, lifecycle_op.enable, lifecycle_op.disable] := by
    intro n
    rcases n with _ | _ | _ | n <;> simp [disables, enables]
  have h3 : below_wrap
      [lifecycle_op.disable, lifecycle_op.enable, lifecycle_op.disable] := by
    intro n
    rcases n with _ | _ | _ | n <;> simp [disables, enables, UINT_MOD_eq]
  have hflag : irqd_irq_disabled
      (run [lifecycle_op.disable, lifecycle_op.enable, lifecycle_op.disable]
        (irq_startup sample_desc false).2.1).1 = true := by decide
  ⟨h1, h2, h3, hflag,
    (disabled_flag_implies_depth sample_desc false
      [lifecycle_op.disable, lifecycle_op.enable, lifecycle_op.disable] h1 h2 h3).1 hflag⟩

/-! ### Order of the chip calls -/

/-- Prepending a chip disable made at depth 0 to the calls of the rest of the sequence. -/
theorem alternates_after_disable (v : irq_snapshot) (T : List call) (k1 k : Nat)
    (hk1 : k1 ≠ 0)
    (hA : alternates false T = true)
    (hB : T = [] → (k1 = 0 ↔ k = 0))
    (hC : ∀ c, T.getLast? = some c → (is_chip_disable c = true ↔ 0 < k)) :
    alternates true (call.chip_irq_disable v :: T) = true ∧
    (∀ c, (call.chip_irq_disable v :: T).getLast? = some c →
      (is_chip_disable c = true ↔ 0 < k)) := by
  constructor
  · simp [alternates, is_chip_disable, hA]
  · intro c hc
    cases T with
    | nil =>
      simp at hc
      subst hc
      have := hB rfl
      simp [is_chip_disable]
      omega
    | cons x xs =>
      rw [List.getLast?_cons_cons] at hc
      exact hC c hc

/-- Prepending a chip enable made on reaching depth 0 to the calls of the rest. -/
theorem alternates_after_enable (v : irq_snapshot) (T : List call) (k : Nat)
    (hA : alternates true T = true)
    (hB : T = [] → k = 0)
    (hC : ∀ c, T.getLast? = some c → (is_chip_disable c = true ↔ 0 < k)) :
    alternates false (call.chip_irq_enable v :: T) = true ∧
    (∀ c, (call.chip_irq_enable v :: T).getLast? = some c →
      (is_chip_disable c = true ↔ 0 < k)) := by
  constructor
  · simp [alternates, is_chip_enable, hA]
  · intro c hc
    cases T with
    | nil =>
      simp at hc
      subst hc
      have := hB rfl
      simp [is_chip_disable]
      omega
    | cons x xs =>
      rw [List.getLast?_cons_cons] at hc
      exact hC c hc

/-- The calls of a well-nested sequence on a chip with both operations: they alternate,
starting with a disable exactly when the sequence starts at depth 0, and the last one is a
disable exactly when the sequence ends at nonzero depth. -/
theorem run_alternates (ops : List lifecycle_op) (desc : irq_desc)
    (hdis : desc.irq_data.chip.irq_disable = true)
    (hen : desc.irq_data.chip.irq_enable = true)
    (hops : only_disable_enable ops) (hnest : nesting_ok desc.depth ops) :
    alternates (decide (desc.depth = 0)) (run ops desc).2.flatten = true ∧
    ((run ops desc).2.flatten = [] → (desc.depth = 0 ↔ (run ops desc).1.depth = 0)) ∧
    (∀ c, (run ops desc).2.flatten.getLast? = some c →
      (is_chip_disable c = true ↔ 0 < (run ops desc).1.depth)) := by
  induction ops generalizing desc with
  | nil =>
    refine ⟨?_, fun _ => Iff.rfl, fun c hc => ?_⟩
    · show alternates (decide (desc.depth = 0)) [] = true
      cases decide (desc.depth = 0) <;> rfl
    · cases hc
  | cons op ops ih =>
    have hrest : only_disable_enable ops := fun o ho => hops o (List.mem_cons_of_mem _ ho)
    rw [run_cons_desc, run_cons_calls, List.flatten_cons]
    rcases hops op (List.mem_cons_self _ _) with h | h <;> subst h
    · obtain ⟨hlt, hok⟩ := nesting_ok_disable _ _ hnest
      have hd : (step lifecycle_op.disable desc).1.depth = desc.depth + 1 := by
        rw [step_disable, irq_disable_depth, Nat.mod_eq_of_lt hlt]
      obtain ⟨hA, hB, hC⟩ := ih (step lifecycle_op.disable desc).1 hdis hen hrest
        (by rw [hd]; exact hok)
      rw [hd] at hA hB
      have hcalls := irq_disable_calls desc _ rfl
      rw [step_disable] at hA hB hC ⊢
      by_cases hk : desc.depth = 0
      · rw [hcalls, if_pos ⟨hk, hdis⟩, List.singleton_append]
        have hfalse : decide (desc.depth + 1 = 0) = false := by simp
        rw [hfalse] at hA
        have := alternates_after_disable
          (snapshot { irq_state_set_disabled desc with depth := (desc.depth + 1) % UINT_MOD })
          _ (desc.depth + 1) _ (by omega) hA hB hC
        refine ⟨?_, fun hnil => ?_, this.2⟩
        · rw [decide_eq_true hk]
          exact this.1
        · cases hnil
      · rw [hcalls, if_neg (fun hc => hk hc.1), List.nil_append]
        have h1 : decide (desc.depth + 1 = 0) = decide (desc.depth = 0) := by simp [hk]
        rw [h1] at hA
        refine ⟨hA, fun hnil => ?_, hC⟩
        have := hB hnil
        omega
    · obtain ⟨hpos, hlt, hok⟩ := nesting_ok_enable _ _ hnest
      have hmod : (desc.depth + UINT_MOD - 1) % UINT_MOD = desc.depth - 1 := by
        rw [UINT_MOD_eq] at hlt ⊢
        omega
      have hd : (step lifecycle_op.enable desc).1.depth = desc.depth - 1 := by
        rw [step_enable, irq_enable_depth, hmod]
      obtain ⟨hA, hB, hC⟩ := ih (step lifecycle_op.enable desc).1 hdis hen hrest
        (by rw [hd]; exact hok)
      rw [hd] at hA hB
      have hcalls := irq_enable_calls desc _ hmod
      rw [step_enable] at hA hB hC ⊢
      have hne : decide (desc.depth = 0) = false := by simp; omega
      by_cases hk : desc.depth - 1 = 0
      · rw [hcalls, if_pos ⟨hk, hen⟩, List.singleton_append]
        rw [decide_eq_true hk] at hA
        have := alternates_after_enable
          (snapshot { desc with depth := desc.depth - 1 })
          _ _ hA (fun hnil => (hB hnil).1 hk) hC
        refine ⟨?_, fun hnil => ?_, this.2⟩
        · rw [hne]
          exact this.1
        · cases hnil
      · rw [hcalls, if_neg (fun hc => hk hc.1), List.nil_append]
        have h1 : decide (desc.depth - 1 = 0) = decide (desc.depth = 0) := by
          rw [hne]; simp [hk]
        rw [h1] at hA
        refine ⟨hA, fun hnil => ?_, hC⟩
        have := hB hnil
        omega

/-- C18 (amended): after `irq_startup` on a chip with both operations, along every prefix of
a sequence of disables and enables in which no prefix has more enables than disables and
the outstanding count stays below `2 ^ 32`, the chip calls alternate disable, enable,
disable, ... starting with a disable, and the last chip call is a disable exactly when the
depth is nonzero. -/
theorem chip_calls_alternate (desc : irq_desc) (resend : Bool) (ops : List lifecycle_op)
    (hdis : desc.irq_data.chip.irq_disable = true)
    (hen : desc.irq_data.chip.irq_enable = true)
    (hops : only_disable_enable ops) (hnest : never_more_enables ops)
    (hwrap : below_wrap ops) (n : Nat) :
    alternates true (run (ops.take n) (irq_startup desc resend).2.1).2.flatten = true ∧
    ((run (ops.take n) (irq_startup desc resend).2.1).2.flatten.getLast?.map is_chip_disable =
        some true ↔
      0 < (run (ops.take n) (irq_startup desc resend).2.1).1.depth) := by
  have hchip : (irq_startup desc resend).2.1.irq_data = desc.irq_data :=
    (irq_startup_frame desc resend).1
  have h := run_alternates (ops.take n) (irq_startup desc resend).2.1
    (by rw [hchip]; exact hdis) (by rw [hchip]; exact hen)
    (only_disable_enable_take ops n hops)
    (by rw [irq_startup_depth]; exact nesting_ok_take 0 ops n (nesting_ok_of_start ops hnest hwrap))
  rw [irq_startup_depth] at h
  obtain ⟨hA, hB, hC⟩ := h
  refine ⟨hA, ?_⟩
  generalize (run (ops.take n) (irq_startup desc resend).2.1).2.flatten = T at hB hC
  generalize (run (ops.take n) (irq_startup desc resend).2.1).1.depth = k at hB hC
  constructor
  · intro hlast
    cases hT : T.getLast? with
    | none => rw [hT] at hlast; cases hlast
    | some c =>
      rw [hT] at hlast
      have hc : is_chip_disable c = true := by simpa using hlast
      exact (hC c hT).1 hc
  · intro hk
    cases hT : T.getLast? with
    | none =>
      have hnil : T = [] := List.getLast?_eq_none_iff.mp hT
      have := (hB hnil).1 rfl
      omega
    | some c =>
      have hc := (hC c hT).2 hk
      simp [hc]

theorem chip_calls_alternate_witness :
    sample_desc.irq_data.chip.irq_disable = true ∧
    sample_desc.irq_data.chip.irq_enable = true ∧
    only_disable_enable [lifecycle_op.disable, lifecycle_op.enable, lifecycle_op.disable] ∧
    never_more_enables [lifecycle_op.disable, lifecycle_op.enable, lifecycle_op.disable] ∧
    below_wrap [lifecycle_op.disable, lifecycle_op.enable, lifecycle_op.disable] ∧
    alternates true
      (run ([lifecycle_op.disable, lifecycle_op.enable, lifecycle_op.disable].take 3)
        (irq_startup sample_desc false).2.1).2.flatten = true ∧
    ((run ([lifecycle_op.disable, lifecycle_op.enable, lifecycle_op.disable].take 3)
        (irq_startup sample_desc false).2.1).2.flatten.getLast?.map is_chip_disable =
        some true ↔
      0 < (run ([lifecycle_op.disable, lifecycle_op.enable, lifecycle_op.disable].take 3)
        (irq_startup sample_desc false).2.1).1.depth) :=
  have h1 : only_disable_enable
      [lifecycle_op.disable, lifecycle_op.enable, lifecycle_op.disable] := by
    unfold only_disable_enable
    decide
  have h2 : never_more_enables
      [lifecycle_op.disable, lifecycle_op.enable, lifecycle_op.disable] := by
    intro n
    rcases n with _ | _ | _ | n <;> simp [disables, enables]
  have h3 : below_wrap
      [lifecycle_op.disable, lifecycle_op.enable, lifecycle_op.disable] := by
    intro n
    rcases n with _ | _ | _ | n <;> simp [disables, enables, UINT_MOD_eq]
  ⟨rfl, rfl, h1, h2, h3,
    chip_calls_alternate sample_desc false
      [lifecycle_op.disable, lifecycle_op.enable, lifecycle_op.disable] rfl rfl h1 h2 h3 3⟩

/-- A disable whose increment wraps the counter to 0 makes no call. -/
theorem irq_disable_wrap (st hd : Nat) (md : Option Nat) (dat : irq_data) (k : Nat)
    (hpos : 0 < k) (hlim : k + 1 = UINT_MOD) (hset : st ||| IRQD_IRQ_DISABLED = st) :
    irq_disable ⟨⟨st, hd, md⟩, dat, k⟩ = (⟨⟨st, hd, md⟩, dat, 0⟩, []) := by
  have hne : k ≠ 0 := by omega
  have hmod : (k + 1) % UINT_MOD = 0 := by rw [hlim]; exact Nat.mod_self _
  simp [irq_disable, irq_state_set_disabled, irqd_set, hset, hne, hmod]

theorem flatten_replicate_nil (m : Nat) :
    (List.replicate m ([] : List call)).flatten = [] := by
  induction m with
  | zero => rfl
  | succ m ih => rw [List.replicate_succ, List.flatten_cons, ih]; rfl

/-- As many disables as the counter has values, from depth 0 on a chip with `irq_disable`:
one chip call, and the depth is 0 again. -/
theorem run_disable_wrap (N : Nat) (hN : N = UINT_MOD) (st hd : Nat) (md : Option Nat)
    (dat : irq_data) (hdis : dat.chip.irq_disable = true) :
    run (List.replicate N lifecycle_op.disable) ⟨⟨st, hd, md⟩, dat, 0⟩ =
      (⟨⟨st ||| IRQD_IRQ_DISABLED, hd, md⟩, dat, 0⟩,
        [call.chip_irq_disable ⟨dat.irq, dat.chip_data, ⟨st ||| IRQD_IRQ_DISABLED, hd, md⟩, 1⟩] ::
          List.replicate (N - 1) []) := by
  obtain ⟨n, rfl⟩ : ∃ n, N = n + 2 := ⟨N - 2, by rw [hN, UINT_MOD_eq]⟩
  have hor : (st ||| IRQD_IRQ_DISABLED) ||| IRQD_IRQ_DISABLED = st ||| IRQD_IRQ_DISABLED := by
    rw [Nat.or_assoc, Nat.or_self]
  rw [List.replicate_succ, run_cons, step_disable, irq_disable_first st hd md dat hdis]
  dsimp only
  rw [List.replicate_succ', run_append,
    run_disable_nested n _ hd md dat 1 (by omega) (by omega) hor]
  dsimp only
  rw [run_cons, step_disable, irq_disable_wrap _ hd md dat (1 + n) (by omega) (by omega) hor]
  have h1 : n + 2 - 1 = n + 1 := by omega
  rw [h1, List.replicate_succ' n]
  rfl

theorem enables_replicate_disable (m : Nat) :
    enables (List.replicate m lifecycle_op.disable) = 0 := by
  induction m with
  | zero => rfl
  | succ m ih => rw [List.replicate_succ]; simp [enables, ih]

/-- C18 as stated fails once the counter wraps: after `irq_startup` on a chip with both
operations, `2 ^ 32` disables (no enable at all, so no prefix has more enables than
disables) leave depth 0 while the only, hence last, chip call is a disable. -/
theorem alternation_breaks_at_wrap :
    sample_desc.irq_data.chip.irq_disable = true ∧
    sample_desc.irq_data.chip.irq_enable = true ∧
    only_disable_enable (List.replicate UINT_MOD lifecycle_op.disable) ∧
    never_more_enables (List.replicate UINT_MOD lifecycle_op.disable) ∧
    (run (List.replicate UINT_MOD lifecycle_op.disable)
      (irq_startup sample_desc false).2.1).1.depth = 0 ∧
    (run (List.replicate UINT_MOD lifecycle_op.disable)
      (irq_startup sample_desc false).2.1).2.flatten.getLast?.map is_chip_disable = some true ∧
    ¬ ((run (List.replicate UINT_MOD lifecycle_op.disable)
        (irq_startup sample_desc false).2.1).2.flatten.getLast?.map is_chip_disable = some true ↔
      0 < (run (List.replicate UINT_MOD lifecycle_op.disable)
        (irq_startup sample_desc false).2.1).1.depth) := by
  have hstart : (irq_startup sample_desc false).2.1 =
      ⟨⟨(0x20000 &&& ((UINT_MOD - 1) ^^^ IRQD_IRQ_DISABLED)) &&&
          ((UINT_MOD - 1) ^^^ IRQD_IRQ_MASKED), 0, none⟩, sample_desc.irq_data, 0⟩ := by
    rw [irq_startup_desc_some sample_desc false (fun _ => 7) rfl]
    rfl
  have hrun := run_disable_wrap UINT_MOD rfl
    ((0x20000 &&& ((UINT_MOD - 1) ^^^ IRQD_IRQ_DISABLED)) &&&
      ((UINT_MOD - 1) ^^^ IRQD_IRQ_MASKED)) 0 none sample_desc.irq_data rfl
  have hdepth : (run (List.replicate UINT_MOD lifecycle_op.disable)
      (irq_startup sample_desc false).2.1).1.depth = 0 := by
    rw [hstart, hrun]
  have hlast : (run (List.replicate UINT_MOD lifecycle_op.disable)
      (irq_startup sample_desc false).2.1).2.flatten.getLast?.map is_chip_disable =
        some true := by
    rw [hstart, hrun]
    dsimp only
    rw [List.flatten_cons, flatten_replicate_nil]
    rfl
  refine ⟨rfl, rfl, ?_, ?_, hdepth, hlast, ?_⟩
  · intro op hop
    exact Or.inl (List.eq_of_mem_replicate hop)
  · intro n
    rw [List.take_replicate, enables_replicate_disable]
    exact Nat.zero_le _
  · rw [hdepth]
    intro h
    exact absurd (h.1 hlast) (by decide)

end IrqChip
